import Mathlib

/-!
Verification of the mcp-research-assistant repository.

Python strings are modelled as `List Char`; Python dictionaries as
association lists where a later binding for a key overwrites an earlier
one; functions that may raise are modelled with `Except`; functions that
write to the file system are modelled as returning the content they write.
-/

namespace MCPRA

/-- Convert a Lean string literal to the `List Char` model of Python strings. -/
def toL (s : String) : List Char := s.toList

/-- The whitespace test used by Python `str.split()` / `str.strip()`,
restricted to the ASCII whitespace characters. -/
def isPySpace (c : Char) : Bool :=
  c = ' ' || c = '\t' || c = '\n' || c = '\r' || c = '\x0b' || c = '\x0c'

/-- Python `s.replace(old, new)` for a single-character `old` and `new`:
every occurrence of the character is replaced pointwise. -/
def pyReplaceChar (old new : Char) (s : List Char) : List Char :=
  s.map (fun c => if c = old then new else c)

/-- Python `s.split()` (no separator): the maximal runs of non-whitespace
characters, with leading/trailing/repeated whitespace discarded. -/
def pyWords (s : List Char) : List (List Char) :=
  match s with
  | [] => []
  | c :: rest =>
    if isPySpace c then pyWords rest
    else (c :: rest.takeWhile (fun x => ¬ isPySpace x)) ::
      pyWords (rest.dropWhile (fun x => ¬ isPySpace x))
termination_by s.length
decreasing_by
  · simp only [List.length_cons]; omega
  · have h := (List.dropWhile_sublist (p := fun x => ¬ isPySpace x) (l := rest)).length_le
    simp only [List.length_cons]; omega

/-- The invalid filename characters of `FileManager._sanitize_filename`
(the Python string `<>:"/\|?*`). -/
def invalidChars : List Char := toL "<>:\"/\\|?*"

/-- `FileManager._sanitize_filename`: replace each invalid character with
an underscore, join the whitespace-separated words with underscores, and
truncate to 100 characters. -/
def sanitizeFilename (filename : List Char) : List Char :=
  let replaced := invalidChars.foldl (fun acc ch => pyReplaceChar ch '_' acc) filename
  let joined := List.intercalate (toL "_") (pyWords replaced)
  joined.take 100

lemma mem_intersperse {α : Type} (sep : α) :
    ∀ (l : List α) (x : α), x ∈ List.intersperse sep l → x = sep ∨ x ∈ l
  | [], x, h => by simp [List.intersperse] at h
  | [a], x, h => by
    simp only [List.intersperse_singleton, List.mem_singleton] at h
    exact Or.inr (by simp [h])
  | a :: b :: tl, x, h => by
    simp only [List.intersperse_cons₂, List.mem_cons] at h
    rcases h with h | h | h
    · exact Or.inr (by simp [h])
    · exact Or.inl h
    · rcases mem_intersperse sep (b :: tl) x h with h2 | h2
      · exact Or.inl h2
      · exact Or.inr (List.mem_cons_of_mem _ h2)

lemma mem_intercalate {α : Type} (sep : α) (ws : List (List α)) (c : α)
    (h : c ∈ List.intercalate [sep] ws) : c = sep ∨ ∃ w ∈ ws, c ∈ w := by
  rw [List.intercalate] at h
  rcases List.mem_flatten.mp h with ⟨piece, hp, hc⟩
  rcases mem_intersperse [sep] ws piece hp with h2 | h2
  · subst h2; simp at hc; exact Or.inl hc
  · exact Or.inr ⟨piece, h2, hc⟩

lemma mem_foldl_replaceChar :
    ∀ (cs : List Char) (s : List Char) (c : Char),
      c ∈ cs.foldl (fun acc ch => pyReplaceChar ch '_' acc) s →
      c = '_' ∨ (c ∈ s ∧ c ∉ cs)
  | [], s, c, h => Or.inr ⟨h, by simp⟩
  | ch :: cs, s, c, h => by
    simp only [List.foldl_cons] at h
    rcases mem_foldl_replaceChar cs (pyReplaceChar ch '_' s) c h with h2 | ⟨h2, h3⟩
    · exact Or.inl h2
    · simp only [pyReplaceChar, List.mem_map] at h2
      rcases h2 with ⟨x, hx, hxc⟩
      by_cases hxo : x = ch
      · simp [hxo] at hxc; exact Or.inl hxc.symm
      · simp [hxo] at hxc; subst hxc
        exact Or.inr ⟨hx, by simp [hxo, h3]⟩

lemma mem_pyWords (s : List Char) :
    ∀ w ∈ pyWords s, ∀ c ∈ w, c ∈ s ∧ isPySpace c = false := by
  induction s using pyWords.induct with
  | case1 => simp [pyWords]
  | case2 c rest hsp ih =>
    intro w hw x hx
    rw [pyWords, if_pos hsp] at hw
    exact ⟨List.mem_cons_of_mem _ (ih w hw x hx).1, (ih w hw x hx).2⟩
  | case3 c rest hsp ih =>
    intro w hw x hx
    rw [pyWords, if_neg hsp] at hw
    rcases List.mem_cons.mp hw with hw | hw
    · subst hw
      rcases List.mem_cons.mp hx with hx | hx
      · subst hx
        exact ⟨List.mem_cons_self _ _, by simpa using hsp⟩
      · refine ⟨List.mem_cons_of_mem _ ((List.takeWhile_sublist _).subset hx), ?_⟩
        have := List.mem_takeWhile_imp hx
        simpa using this
    · have h2 := ih w hw x hx
      exact ⟨List.mem_cons_of_mem _ ((List.dropWhile_sublist _).subset h2.1), h2.2⟩

/-- C6: `_sanitize_filename` produces output containing no character of the
invalid set `<>:"/\|?*` (each occurrence is replaced), containing no
whitespace character (whitespace runs become underscores), and of length at
most 100. -/
theorem c6_sanitize_filename (title : List Char) :
    (∀ c ∈ sanitizeFilename title, c ∉ invalidChars) ∧
    (∀ c ∈ sanitizeFilename title, isPySpace c = false) ∧
    (sanitizeFilename title).length ≤ 100 := by
  have hmem : ∀ c ∈ sanitizeFilename title, c ∉ invalidChars ∧ isPySpace c = false := by
    intro c hc
    have hc2 := List.mem_of_mem_take hc
    have : toL "_" = ['_'] := rfl
    rw [this] at hc2
    rcases mem_intercalate '_' _ c hc2 with h | ⟨w, hw, hcw⟩
    · subst h
      constructor
      · decide
      · decide
    · have h2 := mem_pyWords _ w hw c hcw
      constructor
      · intro hbad
        rcases mem_foldl_replaceChar invalidChars title c h2.1 with h3 | ⟨_, h3⟩
        · subst h3; revert hbad; decide
        · exact h3 hbad
      · exact h2.2
  exact ⟨fun c hc => (hmem c hc).1, fun c hc => (hmem c hc).2,
    List.length_take_le _ _⟩

/-! ### Python `str.replace` and substring membership -/

/-- Python `s.replace(needle, repl)`: replace every non-overlapping
occurrence of `needle`, scanning left to right.  (Python's behaviour for an
empty needle — interleaving `repl` everywhere — is not modelled; every
needle used in this repository is a non-empty literal, and the guard makes
the empty-needle case the identity.) -/
def pyReplace (s needle repl : List Char) : List Char :=
  match s with
  | [] => []
  | c :: rest =>
    if needle ≠ [] ∧ needle.isPrefixOf (c :: rest) then
      repl ++ pyReplace ((c :: rest).drop needle.length) needle repl
    else
      c :: pyReplace rest needle repl
termination_by s.length
decreasing_by
  · rename_i h
    have h1 : needle.length ≥ 1 := by
      cases needle with
      | nil => exact absurd rfl h.1
      | cons x xs => simp
    simp only [List.drop, List.length_cons, List.length_drop]
    omega
  · simp

/-- Python `needle in s` (substring test). -/
def containsSub (s needle : List Char) : Bool :=
  s.tails.any (fun t => needle.isPrefixOf t)

lemma pyReplace_of_not_containsSub (needle repl : List Char) :
    ∀ (s : List Char), containsSub s needle = false → pyReplace s needle repl = s := by
  intro s
  induction s with
  | nil => intro _; simp [pyReplace]
  | cons c rest ih =>
    intro h
    simp only [containsSub, List.tails_cons, List.any_cons, Bool.or_eq_false_iff] at h
    rw [pyReplace, if_neg]
    · rw [ih h.2]
    · intro hcond
      rw [hcond.2] at h
      exact absurd h.1 (by simp)

lemma containsSub_eq_false_of_not_mem {x : Char} {needle s : List Char}
    (hx : x ∈ needle) (hs : x ∉ s) : containsSub s needle = false := by
  by_contra h
  rw [Bool.not_eq_false, containsSub, List.any_eq_true] at h
  rcases h with ⟨t, ht, hpre⟩
  rw [List.mem_tails] at ht
  rw [List.isPrefixOf_iff_prefix] at hpre
  exact hs (ht.subset (hpre.subset hx))

/-! ### `utils.validate_arxiv_id` -/

/-- ASCII matcher for the regex fragment `(v\d+)?$`. -/
def matchVer (q : List Char) : Bool :=
  match q with
  | [] => true
  | c :: ds => c = 'v' && ds ≠ [] && ds.all Char.isDigit

/-- ASCII matcher for the anchored regex `^\d{4}\.\d{4,5}(v\d+)?$`
(the new-style arXiv identifier pattern of `validate_arxiv_id`). -/
def matchesNewFormat (s : List Char) : Bool :=
  match s with
  | a :: b :: c :: d :: dot :: rest =>
    a.isDigit && b.isDigit && c.isDigit && d.isDigit && dot = '.' &&
    (let frac := rest.takeWhile Char.isDigit
     (frac.length = 4 || frac.length = 5) && matchVer (rest.dropWhile Char.isDigit))
  | _ => false

/-- The character class `[a-z-]`. -/
def isLowerOrDash (c : Char) : Bool := ('a' ≤ c && c ≤ 'z') || c = '-'

/-- The character class `[A-Z]`. -/
def isUpperAlpha (c : Char) : Bool := 'A' ≤ c && c ≤ 'Z'

/-- Matcher for the regex fragment `\d{7}(v\d+)?$`. -/
def matchSlashTail (s : List Char) : Bool :=
  (s.take 7).length = 7 && (s.take 7).all Char.isDigit && matchVer (s.drop 7)

/-- Matcher for the regex fragment `(\.[A-Z]{2})?/\d{7}(v\d+)?$`, applied to
what remains after the maximal leading `[a-z-]+` run. -/
def matchOldAfterClass (r : List Char) : Bool :=
  match r with
  | d :: u1 :: u2 :: sl :: rest =>
    if d = '.' then
      isUpperAlpha u1 && isUpperAlpha u2 && sl = '/' && matchSlashTail rest
    else
      d = '/' && matchSlashTail (u1 :: u2 :: sl :: rest)
  | d :: rest => d = '/' && matchSlashTail rest
  | [] => false

/-- ASCII matcher for the anchored regex `^[a-z-]+(\.[A-Z]{2})?/\d{7}(v\d+)?$`
(the old-style arXiv identifier pattern of `validate_arxiv_id`). -/
def matchesOldFormat (s : List Char) : Bool :=
  !(s.takeWhile isLowerOrDash).isEmpty &&
  matchOldAfterClass (s.dropWhile isLowerOrDash)

/-- `utils.validate_arxiv_id`: strip the `arXiv:` and `http://arxiv.org/abs/`
prefixes by literal substring removal, then test the two anchored patterns. -/
def validateArxivId (arxiv_id : List Char) : Bool :=
  let clean := pyReplace (pyReplace arxiv_id (toL "arXiv:") [])
    (toL "http://arxiv.org/abs/") []
  matchesNewFormat clean || matchesOldFormat clean

lemma matchVer_chars {q : List Char} (h : matchVer q = true) :
    ∀ c ∈ q, c = 'v' ∨ c.isDigit := by
  cases q with
  | nil => simp
  | cons c ds =>
    simp only [matchVer, Bool.and_eq_true, decide_eq_true_eq, List.all_eq_true] at h
    intro x hx
    rcases List.mem_cons.mp hx with hx | hx
    · exact Or.inl (hx.trans h.1.1)
    · exact Or.inr (h.2 x hx)

lemma no_colon_of_matchesNewFormat {s : List Char} (h : matchesNewFormat s = true) :
    ':' ∉ s := by
  match s with
  | [] => simp [matchesNewFormat] at h
  | [a] => simp [matchesNewFormat] at h
  | [a, b] => simp [matchesNewFormat] at h
  | [a, b, c] => simp [matchesNewFormat] at h
  | [a, b, c, d] => simp [matchesNewFormat] at h
  | a :: b :: c :: d :: dot :: rest =>
    simp only [matchesNewFormat, Bool.and_eq_true, decide_eq_true_eq] at h
    obtain ⟨⟨⟨⟨⟨ha, hb⟩, hc⟩, hd⟩, hdot⟩, _, hver⟩ := h
    intro hmem
    simp only [List.mem_cons] at hmem
    rcases hmem with h1 | h1 | h1 | h1 | h1 | h1
    · rw [← h1] at ha; simp [Char.isDigit] at ha
    · rw [← h1] at hb; simp [Char.isDigit] at hb
    · rw [← h1] at hc; simp [Char.isDigit] at hc
    · rw [← h1] at hd; simp [Char.isDigit] at hd
    · rw [← h1] at hdot; exact absurd hdot (by decide)
    · rw [← List.takeWhile_append_dropWhile Char.isDigit rest] at h1
      rcases List.mem_append.mp h1 with h2 | h2
      · have := List.mem_takeWhile_imp h2
        simp [Char.isDigit] at this
      · rcases matchVer_chars hver _ h2 with h3 | h3
        · exact absurd h3 (by decide)
        · simp [Char.isDigit] at h3

lemma no_colon_of_matchSlashTail {s : List Char} (h : matchSlashTail s = true) :
    ':' ∉ s := by
  simp only [matchSlashTail, Bool.and_eq_true, decide_eq_true_eq, List.all_eq_true] at h
  intro hmem
  rw [← List.take_append_drop 7 s] at hmem
  rcases List.mem_append.mp hmem with h2 | h2
  · have := h.1.2 _ h2
    simp [Char.isDigit] at this
  · rcases matchVer_chars h.2 _ h2 with h3 | h3
    · exact absurd h3 (by decide)
    · simp [Char.isDigit] at h3

lemma no_colon_of_matchOldAfterClass {r : List Char}
    (h : matchOldAfterClass r = true) : ':' ∉ r := by
  match r with
  | [] => simp [matchOldAfterClass] at h
  | [d] =>
    simp [matchOldAfterClass, matchSlashTail] at h
  | [d, e] =>
    simp only [matchOldAfterClass, Bool.and_eq_true, decide_eq_true_eq] at h
    intro hmem
    rcases List.mem_cons.mp hmem with h1 | h1
    · rw [← h1] at h; exact absurd h.1 (by decide)
    · exact no_colon_of_matchSlashTail h.2 h1
  | [d, e, f] =>
    simp only [matchOldAfterClass, Bool.and_eq_true, decide_eq_true_eq] at h
    intro hmem
    rcases List.mem_cons.mp hmem with h1 | h1
    · rw [← h1] at h; exact absurd h.1 (by decide)
    · exact no_colon_of_matchSlashTail h.2 h1
  | d :: u1 :: u2 :: sl :: rest =>
    rw [matchOldAfterClass] at h
    by_cases hdot : d = '.'
    · rw [if_pos hdot] at h
      simp only [Bool.and_eq_true, decide_eq_true_eq] at h
      obtain ⟨⟨⟨hu1, hu2⟩, hsl⟩, htail⟩ := h
      intro hmem
      simp only [List.mem_cons] at hmem
      rcases hmem with h1 | h1 | h1 | h1 | h1
      · rw [← h1] at hdot; exact absurd hdot (by decide)
      · rw [← h1] at hu1; simp [isUpperAlpha] at hu1
      · rw [← h1] at hu2; simp [isUpperAlpha] at hu2
      · rw [← h1] at hsl; exact absurd hsl (by decide)
      · exact no_colon_of_matchSlashTail htail h1
    · rw [if_neg hdot] at h
      simp only [Bool.and_eq_true, decide_eq_true_eq] at h
      intro hmem
      rcases List.mem_cons.mp hmem with h1 | h1
      · rw [← h1] at h; exact absurd h.1 (by decide)
      · exact no_colon_of_matchSlashTail h.2 h1

lemma no_colon_of_matchesOldFormat {s : List Char} (h : matchesOldFormat s = true) :
    ':' ∉ s := by
  simp only [matchesOldFormat, Bool.and_eq_true] at h
  intro hmem
  rw [← List.takeWhile_append_dropWhile isLowerOrDash s] at hmem
  rcases List.mem_append.mp hmem with h1 | h1
  · have := List.mem_takeWhile_imp h1
    simp [isLowerOrDash] at this
  · exact no_colon_of_matchOldAfterClass h.2 h1

/-- C7: every identifier matching the new-style pattern
`\d{4}\.\d{4,5}(v\d+)?` or the old-style pattern
`[a-z-]+(\.[A-Z]{2})?/\d{7}(v\d+)?` validates, while `"invalid"`, `"123"`
and `""` do not. -/
theorem c7_validate_arxiv_id (s : List Char)
    (h : matchesNewFormat s = true ∨ matchesOldFormat s = true) :
    validateArxivId s = true ∧
    validateArxivId (toL "invalid") = false ∧
    validateArxivId (toL "123") = false ∧
    validateArxivId (toL "") = false := by
  have heval : ∀ (t : List Char), ':' ∉ t →
      validateArxivId t = (matchesNewFormat t || matchesOldFormat t) := by
    intro t ht
    have h1 : pyReplace t (toL "arXiv:") [] = t :=
      pyReplace_of_not_containsSub _ _ _
        (containsSub_eq_false_of_not_mem (x := ':') (by decide) ht)
    have h2 : pyReplace t (toL "http://arxiv.org/abs/") [] = t :=
      pyReplace_of_not_containsSub _ _ _
        (containsSub_eq_false_of_not_mem (x := ':') (by decide) ht)
    rw [validateArxivId]
    simp only [h1, h2]
  refine ⟨?_, ?_, ?_, ?_⟩
  · have hcolon : ':' ∉ s := by
      rcases h with h | h
      · exact no_colon_of_matchesNewFormat h
      · exact no_colon_of_matchesOldFormat h
    rw [heval s hcolon]
    rcases h with h | h
    · simp [h]
    · simp [h]
  · rw [heval (toL "invalid") (by decide)]; decide
  · rw [heval (toL "123") (by decide)]; decide
  · rw [heval (toL "") (by decide)]; decide

/-- Witness for C7 at the concrete identifiers `2301.12345v2` (new style)
and `cs.AI/0601001` (old style). -/
theorem c7_validate_arxiv_id_witness :
    (matchesNewFormat (toL "2301.12345v2") = true ∨
      matchesOldFormat (toL "2301.12345v2") = true) ∧
    validateArxivId (toL "2301.12345v2") = true ∧
    (matchesOldFormat (toL "cs.AI/0601001") = true ∨
      matchesNewFormat (toL "cs.AI/0601001") = true) ∧
    validateArxivId (toL "cs.AI/0601001") = true := by
  refine ⟨Or.inl (by decide), ?_, Or.inl (by decide), ?_⟩
  · exact (c7_validate_arxiv_id (toL "2301.12345v2") (Or.inl (by decide))).1
  · exact (c7_validate_arxiv_id (toL "cs.AI/0601001") (Or.inr (by decide))).1

/-! ### XML elements and `arxiv_client` parsing -/

/-- A parsed XML element, as exposed by `xml.etree.ElementTree`: a tag,
an attribute dictionary, child elements and optional text.  Namespaced tag
names (`atom:entry`, `atom:link`, ...) are kept as plain strings. -/
structure XMLElem where
  tag : List Char
  attrs : List (List Char × List Char)
  children : List XMLElem
  text : Option (List Char)

/-- `element.get(name, '')`: attribute lookup with `""` default. -/
def attrDefault (e : XMLElem) (name : List Char) : List Char :=
  ((e.attrs.find? (fun a => a.1 == name)).map (fun a => a.2)).getD []

/-- `element.findall(tag, namespaces)`: the direct children carrying the
given (namespaced) tag. -/
def findAll (e : XMLElem) (tag : List Char) : List XMLElem :=
  e.children.filter (fun c => c.tag == tag)

/-- The link-extraction loop of `ArXivClient._parse_entry` (lines 172-182):
starting from `pdf_url = ""` and `abs_url = ""`, each link with
`rel == 'alternate'` and a truthy `href` overwrites `abs_url`, and
otherwise each link with `rel == 'related'` and `'pdf' in href`
overwrites `pdf_url`.  The result is the pair `(pdf_url, abs_url)`. -/
def extractLinkUrls (links : List XMLElem) : List Char × List Char :=
  links.foldl (fun acc link =>
    let rel := attrDefault link (toL "rel")
    let href := attrDefault link (toL "href")
    if rel = toL "alternate" ∧ href ≠ [] then (acc.1, href)
    else if rel = toL "related" ∧ containsSub href (toL "pdf") then (href, acc.2)
    else acc) ([], [])

/-- The `href` of a link that the loop treats as a landing-page (`abs_url`)
candidate: `rel == 'alternate'` with non-empty `href`. -/
def altHref (link : XMLElem) : Option (List Char) :=
  let rel := attrDefault link (toL "rel")
  let href := attrDefault link (toL "href")
  if rel = toL "alternate" ∧ href ≠ [] then some href else none

/-- The `href` of a link that the loop treats as a content (`pdf_url`)
candidate: `rel == 'related'` with `'pdf'` occurring in the `href`. -/
def relatedPdfHref (link : XMLElem) : Option (List Char) :=
  let rel := attrDefault link (toL "rel")
  let href := attrDefault link (toL "href")
  if rel = toL "alternate" ∧ href ≠ [] then none
  else if rel = toL "related" ∧ containsSub href (toL "pdf") then some href else none

lemma extractLinkUrls_foldl (links : List XMLElem) :
    ∀ acc : List Char × List Char,
      links.foldl (fun acc link =>
        let rel := attrDefault link (toL "rel")
        let href := attrDefault link (toL "href")
        if rel = toL "alternate" ∧ href ≠ [] then (acc.1, href)
        else if rel = toL "related" ∧ containsSub href (toL "pdf") then (href, acc.2)
        else acc) acc =
      ((links.filterMap relatedPdfHref).getLastD acc.1,
       (links.filterMap altHref).getLastD acc.2) := by
  induction links with
  | nil => intro acc; rfl
  | cons l ls ih =>
    intro acc
    simp only [List.foldl_cons, List.filterMap_cons]
    by_cases h1 : attrDefault l (toL "rel") = toL "alternate" ∧
        attrDefault l (toL "href") ≠ []
    · simp only [altHref, relatedPdfHref, if_pos h1]
      rw [ih, List.getLastD_cons]
    · by_cases h2 : attrDefault l (toL "rel") = toL "related" ∧
          containsSub (attrDefault l (toL "href")) (toL "pdf") = true
      · simp only [altHref, relatedPdfHref, if_neg h1, if_pos h2]
        rw [ih, List.getLastD_cons]
      · simp only [altHref, relatedPdfHref, if_neg h1, if_neg h2]
        rw [ih]

/-- C3 counterexample: an entry with two `alternate` links.  The loop
overwrites `abs_url` on every alternate link, so the stored `abs_url` is
the second link's URL — not the first link's, as the claim states. -/
theorem c3_counterexample :
    (extractLinkUrls
      [⟨toL "atom:link", [(toL "rel", toL "alternate"), (toL "href", toL "http://arxiv.org/abs/2301.00001v1")], [], none⟩,
       ⟨toL "atom:link", [(toL "rel", toL "alternate"), (toL "href", toL "http://arxiv.org/abs/2301.00002v1")], [], none⟩]).2 =
      toL "http://arxiv.org/abs/2301.00002v1" ∧
    (extractLinkUrls
      [⟨toL "atom:link", [(toL "rel", toL "alternate"), (toL "href", toL "http://arxiv.org/abs/2301.00001v1")], [], none⟩,
       ⟨toL "atom:link", [(toL "rel", toL "alternate"), (toL "href", toL "http://arxiv.org/abs/2301.00002v1")], [], none⟩]).2 ≠
      toL "http://arxiv.org/abs/2301.00001v1" := by
  constructor
  · decide
  · decide

/-- C3 amended: the parser treats the LAST link with `rel == 'alternate'`
and a non-empty URL as `abs_url`, and the LAST link with `rel == 'related'`
whose URL contains `"pdf"` as `pdf_url` (each defaulting to `""`). -/
theorem c3_amended_last_link_wins (links : List XMLElem) :
    extractLinkUrls links =
      ((links.filterMap relatedPdfHref).getLastD [],
       (links.filterMap altHref).getLastD []) := by
  rw [extractLinkUrls, extractLinkUrls_foldl]

/-- `ArXivClient._parse_response`: parse the feed document, returning `[]`
when the document is not well-formed XML (`ET.ParseError` is caught and
logged); otherwise parse every `atom:entry` child of the root.  The entry
parser is a parameter (`_parse_entry` always returns a non-empty
dictionary, so the `if paper:` filter in the loop never drops one). -/
def parseResponse {Paper : Type} (parseEntry : XMLElem → Paper)
    (fromstring : List Char → Except (List Char) XMLElem)
    (xml_content : List Char) : List Paper :=
  match fromstring xml_content with
  | .error _ => []
  | .ok root => (findAll root (toL "atom:entry")).map parseEntry

/-- C8: whenever `ET.fromstring` fails on the input document, the feed
parser returns the empty list of papers (and, being a total function,
raises nothing). -/
theorem c8_parse_failure_empty {Paper : Type} (parseEntry : XMLElem → Paper)
    (fromstring : List Char → Except (List Char) XMLElem)
    (xml_content : List Char) (err : List Char)
    (h : fromstring xml_content = .error err) :
    parseResponse parseEntry fromstring xml_content = [] := by
  rw [parseResponse, h]

/-- Witness for C8: a concrete malformed document under a parser that
rejects it. -/
theorem c8_parse_failure_empty_witness :
    (fun (_ : List Char) => (Except.error (toL "syntax error") : Except (List Char) XMLElem))
        (toL "<feed><entry>") = Except.error (toL "syntax error") ∧
    parseResponse (fun e => e.tag)
      (fun _ => Except.error (toL "syntax error")) (toL "<feed><entry>") = [] :=
  ⟨rfl, c8_parse_failure_empty (fun e => e.tag)
    (fun _ => Except.error (toL "syntax error")) (toL "<feed><entry>")
    (toL "syntax error") rfl⟩

/-! ### `arxiv_client` identifier extraction versus lookup cleanup -/

/-- The last path segment of a URL: everything after the last `/`
(`url.split('/')[-1]`). -/
def lastSegment (url : List Char) : List Char :=
  (url.reverse.takeWhile (fun c => c ≠ '/')).reverse

/-- `ArXivClient._parse_entry` lines 152-154:
`arxiv_url.split('/')[-1] if arxiv_url else ""`. -/
def extractIdFromUrl (arxiv_url : List Char) : List Char :=
  if arxiv_url = [] then [] else lastSegment arxiv_url

/-- The identifier cleanup of `ArXivClient.get_paper_by_id` (line 90):
literal substring removal of `"arXiv:"`, `"v1"`, `"v2"`, `"v3"`, in that
order. -/
def cleanLookupId (arxiv_id : List Char) : List Char :=
  pyReplace (pyReplace (pyReplace (pyReplace arxiv_id
    (toL "arXiv:") []) (toL "v1") []) (toL "v2") []) (toL "v3") []

lemma takeWhile_append_of_all {p : Char → Bool} {l r : List Char}
    (h : ∀ c ∈ l, p c = true) :
    (l ++ r).takeWhile p = l ++ r.takeWhile p := by
  induction l with
  | nil => simp
  | cons c tl ih =>
    have hc : p c = true := h c (by simp)
    have ih2 := ih (fun x hx => h x (by simp [hx]))
    simp [List.takeWhile_cons, hc, ih2]

lemma lastSegment_append {pre seg : List Char} (h : '/' ∉ seg) :
    lastSegment (pre ++ '/' :: seg) = seg := by
  rw [lastSegment]
  have h1 : (pre ++ '/' :: seg).reverse = seg.reverse ++ '/' :: pre.reverse := by
    simp
  rw [h1, takeWhile_append_of_all (p := fun c => c ≠ '/')]
  · simp [List.takeWhile_cons]
  · intro c hc
    simp only [List.mem_reverse] at hc
    simp only [decide_eq_true_eq]
    intro hcc
    exact h (hcc ▸ hc)

lemma pyReplace_append_needle (needle : List Char) (hne : needle ≠ []) :
    ∀ (base : List Char),
      (∀ t ∈ (base ++ needle).tails, needle.isPrefixOf t = true →
        t.length = needle.length) →
      pyReplace (base ++ needle) needle [] = base := by
  intro base
  induction base with
  | nil =>
    intro _
    simp only [List.nil_append]
    match hn : needle with
    | c :: rest =>
      rw [pyReplace, if_pos]
      · rw [List.drop_length]
        simp [pyReplace]
      · exact ⟨hne, List.isPrefixOf_iff_prefix.mpr List.prefix_rfl⟩
  | cons c base ih =>
    intro H
    have hself : (c :: base ++ needle) ∈ (c :: base ++ needle).tails :=
      (List.mem_tails _ _).mpr List.suffix_rfl
    have hnp : needle.isPrefixOf (c :: base ++ needle) ≠ true := by
      intro hpre
      have hlen := H _ hself hpre
      simp only [List.cons_append, List.length_cons, List.length_append] at hlen
      omega
    rw [List.cons_append, pyReplace, if_neg]
    · congr 1
      refine ih (fun t ht hpre => H t ?_ hpre)
      rw [List.mem_tails] at ht ⊢
      exact ht.trans (by rw [List.cons_append]; exact List.suffix_cons c _)
    · intro hcond
      exact hnp hcond.2

/-- C5: for an entry URL whose last path segment is a version-suffixed
identifier `base ++ suf` with `suf` one of `v1`, `v2`, `v3`,
`_parse_entry` stores the identifier with the suffix in place, while
`get_paper_by_id` strips it from its lookup key by literal substring
removal.  The hypotheses say that the suffixed segment contains no `/`
and no occurrence of `"arXiv:"`, that its only occurrence of its own
suffix is the final one, and that neither it nor the base contains any of
the other two version markers. -/
theorem c5_stored_id_keeps_suffix_lookup_strips (pre base suf : List Char)
    (hsuf : suf = toL "v1" ∨ suf = toL "v2" ∨ suf = toL "v3")
    (hslash : '/' ∉ base)
    (hA : containsSub (base ++ suf) (toL "arXiv:") = false)
    (hOnly : ∀ t ∈ (base ++ suf).tails,
      suf.isPrefixOf t = true → t.length = suf.length)
    (hOthers : ∀ n ∈ [toL "v1", toL "v2", toL "v3"], n ≠ suf →
      containsSub (base ++ suf) n = false ∧ containsSub base n = false) :
    extractIdFromUrl (pre ++ '/' :: (base ++ suf)) = base ++ suf ∧
    cleanLookupId (base ++ suf) = base := by
  constructor
  · rw [extractIdFromUrl, if_neg (by simp)]
    refine lastSegment_append ?_
    intro hc
    rcases List.mem_append.mp hc with hc | hc
    · exact hslash hc
    · rcases hsuf with h | h | h <;> (subst h; revert hc; decide)
  · rw [cleanLookupId, pyReplace_of_not_containsSub _ _ _ hA]
    rcases hsuf with h | h | h
    · subst h
      rw [pyReplace_append_needle (toL "v1") (by decide) base hOnly]
      rw [pyReplace_of_not_containsSub _ _ _
        (hOthers (toL "v2") (by decide) (by decide)).2]
      exact pyReplace_of_not_containsSub _ _ _
        (hOthers (toL "v3") (by decide) (by decide)).2
    · subst h
      rw [pyReplace_of_not_containsSub _ _ _
        (hOthers (toL "v1") (by decide) (by decide)).1]
      rw [pyReplace_append_needle (toL "v2") (by decide) base hOnly]
      exact pyReplace_of_not_containsSub _ _ _
        (hOthers (toL "v3") (by decide) (by decide)).2
    · subst h
      rw [pyReplace_of_not_containsSub _ _ _
        (hOthers (toL "v1") (by decide) (by decide)).1]
      rw [pyReplace_of_not_containsSub _ _ _
        (hOthers (toL "v2") (by decide) (by decide)).1]
      exact pyReplace_append_needle (toL "v3") (by decide) base hOnly

/-- Witness for C5 at the arXiv URL `http://arxiv.org/abs/2301.12345v2`. -/
theorem c5_stored_id_keeps_suffix_lookup_strips_witness :
    extractIdFromUrl (toL "http://arxiv.org/abs" ++ '/' :: (toL "2301.12345" ++ toL "v2")) =
      toL "2301.12345" ++ toL "v2" ∧
    cleanLookupId (toL "2301.12345" ++ toL "v2") = toL "2301.12345" :=
  c5_stored_id_keeps_suffix_lookup_strips (toL "http://arxiv.org/abs")
    (toL "2301.12345") (toL "v2") (Or.inr (Or.inl rfl)) (by decide) (by decide)
    (by decide) (by decide)

/-! ### Python dictionaries -/

/-- Python `d.get(k)` / `k in d` style lookup on an association-list model
of a dictionary: the LAST binding for a key wins (later assignments
overwrite earlier ones). -/
def pyDictGet {K V : Type} [BEq K] (d : List (K × V)) (k : K) : Option V :=
  ((d.filter (fun e => e.1 == k)).getLast?).map (fun e => e.2)

/-- Python `d[k] = v`: if the key is present, its value is replaced in
place; otherwise the binding is appended at the end (insertion order). -/
def dictSet {K V : Type} [BEq K] (d : List (K × V)) (k : K) (v : V) : List (K × V) :=
  if d.any (fun e => e.1 == k) then
    d.map (fun e => if e.1 == k then (e.1, v) else e)
  else d ++ [(k, v)]

lemma pyDictGet_dictSet {K V : Type} [BEq K] [LawfulBEq K]
    (d : List (K × V)) (k : K) (v : V) :
    pyDictGet (dictSet d k v) k = some v := by
  rw [dictSet]
  by_cases hany : d.any (fun e => e.1 == k) = true
  · rw [if_pos hany, pyDictGet]
    set f : K × V → K × V := fun e => if e.1 == k then (e.1, v) else e with hf
    set q : K × V → Bool := fun e => e.1 == k with hq
    have hval : ∀ x ∈ (d.map f).filter q, x.2 = v := by
      intro x hx
      rcases List.mem_filter.mp hx with ⟨hx1, hx2⟩
      rcases List.mem_map.mp hx1 with ⟨e, _, hfe⟩
      by_cases he : e.1 == k
      · rw [← hfe, hf]; simp [he]
      · exfalso
        have hfe2 : f e = e := by rw [hf]; simp [he]
        rw [← hfe, hfe2, hq] at hx2
        exact he hx2
    have hne : (d.map f).filter q ≠ [] := by
      rcases List.any_eq_true.mp hany with ⟨e, he, hek⟩
      intro hnil
      have hek2 : e.1 = k := by
        rw [hq] at hek
        exact eq_of_beq hek
      have : f e ∈ (d.map f).filter q := by
        rw [List.mem_filter]
        refine ⟨List.mem_map_of_mem f he, ?_⟩
        rw [hf, hq]
        simp [hek2]
      rw [hnil] at this
      exact absurd this (by simp)
    rw [List.getLast?_eq_getLast_of_ne_nil hne, Option.map_some']
    exact congrArg some (hval _ (List.getLast_mem hne))
  · rw [if_neg hany, pyDictGet, List.filter_append]
    have h1 : List.filter (fun e => e.1 == k) [(k, v)] = [(k, v)] := by simp
    have h2 : List.filter (fun (e : K × V) => e.1 == k) d = [] := by
      rw [List.filter_eq_nil_iff]
      intro e he
      intro hek
      exact hany (List.any_eq_true.mpr ⟨e, he, hek⟩)
    rw [h1, h2]
    simp

/-! ### `research_tools.ResearchTools.call_tool` -/

/-- One `TextContent(type="text", text=...)` payload. -/
structure TextContent where
  type : List Char
  text : List Char
deriving DecidableEq

/-- A `CallToolResult` envelope. -/
structure CallToolResult where
  content : List TextContent
deriving DecidableEq

/-- The handler methods a `ResearchTools` instance dispatches to, one per
branch of the `if/elif` chain in `call_tool`.  Each handler takes the
argument dictionary and either returns a result or raises (modelled by
`Except`, the error carrying `str(e)`). -/
structure ToolHandlers (Args : Type) where
  searchArxiv : Args → Except (List Char) CallToolResult
  fetchPaper : Args → Except (List Char) CallToolResult
  downloadPaperContent : Args → Except (List Char) CallToolResult
  summarizePaper : Args → Except (List Char) CallToolResult
  extractKeyPoints : Args → Except (List Char) CallToolResult
  createStructuredSummary : Args → Except (List Char) CallToolResult
  generateCitation : Args → Except (List Char) CallToolResult
  comparePapers : Args → Except (List Char) CallToolResult
  saveNotes : Args → Except (List Char) CallToolResult
  saveSummary : Args → Except (List Char) CallToolResult
  saveReference : Args → Except (List Char) CallToolResult
  searchLocalNotes : Args → Except (List Char) CallToolResult
  listResearchFiles : Args → Except (List Char) CallToolResult
  organizeByTags : Args → Except (List Char) CallToolResult
  exportResearchData : Args → Except (List Char) CallToolResult
  createResearchIndex : Args → Except (List Char) CallToolResult
  uploadToGithub : Args → Except (List Char) CallToolResult
  uploadDirectoryToGithub : Args → Except (List Char) CallToolResult
  createGithubSummary : Args → Except (List Char) CallToolResult
  syncWithGithub : Args → Except (List Char) CallToolResult
  listGithubContents : Args → Except (List Char) CallToolResult
  getRepositoryInfo : Args → Except (List Char) CallToolResult

/-- The ordered name-to-handler table realised by the `if/elif` chain of
`call_tool` (lines 517-573); the chain is first-match lookup over this
table. -/
def toolTable {Args : Type} (h : ToolHandlers Args) :
    List (List Char × (Args → Except (List Char) CallToolResult)) :=
  [(toL "search_arxiv", h.searchArxiv),
   (toL "fetch_paper", h.fetchPaper),
   (toL "download_paper_content", h.downloadPaperContent),
   (toL "summarize_paper", h.summarizePaper),
   (toL "extract_key_points", h.extractKeyPoints),
   (toL "create_structured_summary", h.createStructuredSummary),
   (toL "generate_citation", h.generateCitation),
   (toL "compare_papers", h.comparePapers),
   (toL "save_notes", h.saveNotes),
   (toL "save_summary", h.saveSummary),
   (toL "save_reference", h.saveReference),
   (toL "search_local_notes", h.searchLocalNotes),
   (toL "list_research_files", h.listResearchFiles),
   (toL "organize_by_tags", h.organizeByTags),
   (toL "export_research_data", h.exportResearchData),
   (toL "create_research_index", h.createResearchIndex),
   (toL "upload_to_github", h.uploadToGithub),
   (toL "upload_directory_to_github", h.uploadDirectoryToGithub),
   (toL "create_github_summary", h.createGithubSummary),
   (toL "sync_with_github", h.syncWithGithub),
   (toL "list_github_contents", h.listGithubContents),
   (toL "get_repository_info", h.getRepositoryInfo)]

/-- The handler selected for a name, if any (`none` models falling through
every `elif` to the `else` branch). -/
def handlerFor {Args : Type} (h : ToolHandlers Args) (name : List Char) :
    Option (Args → Except (List Char) CallToolResult) :=
  ((toolTable h).find? (fun p => p.1 == name)).map (fun p => p.2)

/-- The `try`-block body of `call_tool`: dispatch through the `if/elif`
chain; an unknown name returns the `Unknown tool` result (still a normal
return, not an exception). -/
def dispatchTool {Args : Type} (h : ToolHandlers Args) (name : List Char)
    (args : Args) : Except (List Char) CallToolResult :=
  match (toolTable h).find? (fun p => p.1 == name) with
  | some p => p.2 args
  | none => .ok ⟨[⟨toL "text", toL "Unknown tool: " ++ name⟩]⟩

/-- `ResearchTools.call_tool`: run the dispatch and convert any raised
exception into the `Error executing ...` result. -/
def callTool {Args : Type} (h : ToolHandlers Args) (name : List Char)
    (args : Args) : CallToolResult :=
  match dispatchTool h name args with
  | .ok r => r
  | .error e => ⟨[⟨toL "text", toL "Error executing " ++ name ++ toL ": " ++ e⟩]⟩

/-- C1: `call_tool` always returns a result value (it is a total function
into `CallToolResult`): an unknown tool name yields the error-shaped
`Unknown tool: <name>` result, a handler that raises yields the
`Error executing <name>: <message>` result, and a handler that returns
normally has its result passed through. -/
theorem c1_call_tool_total {Args : Type} (h : ToolHandlers Args)
    (name : List Char) (args : Args) :
    (handlerFor h name = none →
      callTool h name args = ⟨[⟨toL "text", toL "Unknown tool: " ++ name⟩]⟩) ∧
    (∀ f e, handlerFor h name = some f → f args = .error e →
      callTool h name args =
        ⟨[⟨toL "text", toL "Error executing " ++ name ++ toL ": " ++ e⟩]⟩) ∧
    (∀ f r, handlerFor h name = some f → f args = .ok r →
      callTool h name args = r) := by
  refine ⟨?_, ?_, ?_⟩
  · intro hnone
    rw [handlerFor, Option.map_eq_none'] at hnone
    rw [callTool, dispatchTool, hnone]
  · intro f e hsome hferr
    rw [handlerFor] at hsome
    rcases Option.map_eq_some'.mp hsome with ⟨p, hp, hpf⟩
    rw [← hpf] at hferr
    simp only [callTool, dispatchTool, hp, hferr]
  · intro f r hsome hfok
    rw [handlerFor] at hsome
    rcases Option.map_eq_some'.mp hsome with ⟨p, hp, hpf⟩
    rw [← hpf] at hfok
    simp only [callTool, dispatchTool, hp, hfok]

/-- A concrete handler set whose every handler raises, used as witness
data. -/
def raisingHandlers : ToolHandlers Unit :=
  let f : Unit → Except (List Char) CallToolResult :=
    fun _ => .error (toL "boom")
  ⟨f, f, f, f, f, f, f, f, f, f, f, f, f, f, f, f, f, f, f, f, f, f⟩

/-- Witness for C1: the unknown name `quux` yields the unknown-tool
result, and the raising `search_arxiv` handler yields the
`Error executing` result. -/
theorem c1_call_tool_total_witness :
    (handlerFor raisingHandlers (toL "quux") = none ∧
      callTool raisingHandlers (toL "quux") () =
        ⟨[⟨toL "text", toL "Unknown tool: " ++ toL "quux"⟩]⟩) ∧
    (callTool raisingHandlers (toL "search_arxiv") () =
      ⟨[⟨toL "text",
         toL "Error executing " ++ toL "search_arxiv" ++ toL ": " ++ toL "boom"⟩]⟩) := by
  refine ⟨⟨rfl, ?_⟩, ?_⟩
  · exact (c1_call_tool_total raisingHandlers (toL "quux") ()).1 rfl
  · exact (c1_call_tool_total raisingHandlers (toL "search_arxiv") ()).2.1
      (fun _ => .error (toL "boom")) (toL "boom") rfl rfl

/-! ### `jsonrpc.handle_jsonrpc` -/

/-- A JSON-RPC request (`jsonrpc.JSONRPCRequest`): version tag, method
name, optional parameter dictionary, optional correlation id (string or
integer). -/
structure JSONRPCRequest (Params : Type) where
  jsonrpc : List Char
  method : List Char
  params : Option Params
  id : Option (List Char ⊕ Int)

/-- The error object `{"code": ..., "message": ...}` of a JSON-RPC error
response. -/
structure JSONRPCError where
  code : Int
  message : List Char
deriving DecidableEq

/-- A JSON-RPC response (`jsonrpc.JSONRPCResponse`). -/
structure JSONRPCResponse (R : Type) where
  jsonrpc : List Char
  result : Option R
  error : Option JSONRPCError
  id : Option (List Char ⊕ Int)

/-- `jsonrpc.handle_jsonrpc`: reject a wrong version tag with an HTTP 400
(modelled as `Except.error`); answer an unregistered method with a
`-32601` error response; call the registered handler with the request's
params (or the empty dictionary), converting a raised exception into a
`-32000` error response; always echo the request's id. -/
def handleJsonrpc {Params R : Type}
    (method_registry : List (List Char × (Params → Except (List Char) R)))
    (emptyParams : Params) (request : JSONRPCRequest Params) :
    Except (Nat × List Char) (JSONRPCResponse R) :=
  if request.jsonrpc ≠ toL "2.0" then
    .error (400, toL "Invalid JSON-RPC version")
  else
    match pyDictGet method_registry request.method with
    | none =>
      .ok ⟨toL "2.0", none, some ⟨-32601, toL "Method not found"⟩, request.id⟩
    | some func =>
      match func (request.params.getD emptyParams) with
      | .ok result => .ok ⟨toL "2.0", some result, none, request.id⟩
      | .error e => .ok ⟨toL "2.0", none, some ⟨-32000, e⟩, request.id⟩

/-- C9: for a request with a valid version tag the endpoint returns a
response (never an HTTP failure) whose id equals the request's id; an
unregistered method gives error code `-32601`, and a handler that raises
gives error code `-32000` carrying `str(e)`. -/
theorem c9_jsonrpc_structured_errors {Params R : Type}
    (method_registry : List (List Char × (Params → Except (List Char) R)))
    (emptyParams : Params) (request : JSONRPCRequest Params)
    (hver : request.jsonrpc = toL "2.0") :
    ∃ resp, handleJsonrpc method_registry emptyParams request = .ok resp ∧
      resp.id = request.id ∧
      (pyDictGet method_registry request.method = none →
        resp.error = some ⟨-32601, toL "Method not found"⟩) ∧
      (∀ f e, pyDictGet method_registry request.method = some f →
        f (request.params.getD emptyParams) = .error e →
        resp.error = some ⟨-32000, e⟩) := by
  cases hreg : pyDictGet method_registry request.method with
  | none =>
    refine ⟨⟨toL "2.0", none, some ⟨-32601, toL "Method not found"⟩, request.id⟩,
      ?_, rfl, fun _ => rfl, ?_⟩
    · simp [handleJsonrpc, hver, hreg]
    · intro f e hf
      exact absurd hf (by simp)
  | some func =>
    cases hrun : func (request.params.getD emptyParams) with
    | ok result =>
      refine ⟨⟨toL "2.0", some result, none, request.id⟩, ?_, rfl, ?_, ?_⟩
      · simp [handleJsonrpc, hver, hreg, hrun]
      · intro hn; exact absurd hn (by simp)
      · intro f e hf hfe
        injection hf with hf
        subst hf
        rw [hfe] at hrun
        exact absurd hrun (by simp)
    | error e0 =>
      refine ⟨⟨toL "2.0", none, some ⟨-32000, e0⟩, request.id⟩, ?_, rfl, ?_, ?_⟩
      · simp [handleJsonrpc, hver, hreg, hrun]
      · intro hn; exact absurd hn (by simp)
      · intro f e hf hfe
        injection hf with hf
        subst hf
        rw [hfe] at hrun
        injection hrun with hrun
        rw [hrun]

/-- Witness for C9: a valid-version request for an unregistered method
against the empty registry. -/
theorem c9_jsonrpc_structured_errors_witness :
    ∃ resp, handleJsonrpc ([] : List (List Char × (Unit → Except (List Char) Unit))) ()
        ⟨toL "2.0", toL "no_such_method", none, some (Sum.inr 7)⟩ = .ok resp ∧
      resp.id = some (Sum.inr 7) ∧
      resp.error = some ⟨-32601, toL "Method not found"⟩ := by
  rcases c9_jsonrpc_structured_errors ([] : List (List Char × (Unit → Except (List Char) Unit))) ()
      ⟨toL "2.0", toL "no_such_method", none, some (Sum.inr 7)⟩ rfl with
    ⟨resp, h1, h2, h3, _⟩
  exact ⟨resp, h1, h2, h3 rfl⟩

/-! ### `file_manager.save_summary` / `save_reference` frame effect -/

/-- The JSON branch of `FileManager.save_summary` (lines 123-139), with
the `datetime.now().isoformat()` timestamp passed explicitly: the
assignment `summary_data["created"] = timestamp` mutates the caller's
dictionary, and that mutated dictionary is what `json.dump` then
serializes.  The returned value is the caller-visible dictionary after
the call, which is also the dictionary written to the file. -/
def saveSummaryJsonData {V : Type} (summary_data : List (List Char × V))
    (timestamp : V) : List (List Char × V) :=
  dictSet summary_data (toL "created") timestamp

/-- `FileManager.save_reference` (lines 160-190), with the timestamp
passed explicitly: `reference_data["saved"] = timestamp` mutates the
caller's dictionary before `json.dump` serializes it.  The returned value
is the caller-visible dictionary after the call, which is also the
dictionary written to the file. -/
def saveReferenceData {V : Type} (reference_data : List (List Char × V))
    (timestamp : V) : List (List Char × V) :=
  dictSet reference_data (toL "saved") timestamp

/-- C10: `save_summary` (json format) and `save_reference` write through
to the caller's dictionary: after the call the caller's dictionary has a
`created` (resp. `saved`) binding equal to the timestamp, and whenever
the dictionary did not already carry exactly that binding, the caller's
dictionary is changed by the call. -/
theorem c10_save_mutates_caller_dict {V : Type}
    (summary_data reference_data : List (List Char × V)) (ts : V) :
    saveSummaryJsonData summary_data ts = dictSet summary_data (toL "created") ts ∧
    pyDictGet (saveSummaryJsonData summary_data ts) (toL "created") = some ts ∧
    (pyDictGet summary_data (toL "created") ≠ some ts →
      saveSummaryJsonData summary_data ts ≠ summary_data) ∧
    saveReferenceData reference_data ts = dictSet reference_data (toL "saved") ts ∧
    pyDictGet (saveReferenceData reference_data ts) (toL "saved") = some ts ∧
    (pyDictGet reference_data (toL "saved") ≠ some ts →
      saveReferenceData reference_data ts ≠ reference_data) := by
  refine ⟨rfl, pyDictGet_dictSet _ _ _, ?_, rfl, pyDictGet_dictSet _ _ _, ?_⟩
  · intro hne heq
    apply hne
    conv_lhs => rw [← heq]
    exact pyDictGet_dictSet _ _ _
  · intro hne heq
    apply hne
    conv_lhs => rw [← heq]
    exact pyDictGet_dictSet _ _ _

/-- Witness for C10 at a concrete summary and reference record. -/
theorem c10_save_mutates_caller_dict_witness :
    pyDictGet [(toL "title", toL "Attention Is All You Need")] (toL "created") ≠
      some (toL "2024-01-01T00:00:00") ∧
    saveSummaryJsonData [(toL "title", toL "Attention Is All You Need")]
        (toL "2024-01-01T00:00:00") ≠
      [(toL "title", toL "Attention Is All You Need")] ∧
    pyDictGet [(toL "id", toL "1706.03762")] (toL "saved") ≠
      some (toL "2024-01-01T00:00:00") ∧
    saveReferenceData [(toL "id", toL "1706.03762")] (toL "2024-01-01T00:00:00") ≠
      [(toL "id", toL "1706.03762")] := by
  refine ⟨by decide, ?_, by decide, ?_⟩
  · exact (c10_save_mutates_caller_dict
      [(toL "title", toL "Attention Is All You Need")]
      [(toL "id", toL "1706.03762")] (toL "2024-01-01T00:00:00")).2.2.1 (by decide)
  · exact (c10_save_mutates_caller_dict
      [(toL "title", toL "Attention Is All You Need")]
      [(toL "id", toL "1706.03762")] (toL "2024-01-01T00:00:00")).2.2.2.2.2 (by decide)

/-! ### `file_manager._summary_to_markdown` -/

/-- Python `str.strip()` with no argument: drop leading and trailing
whitespace. -/
def pyStrip (s : List Char) : List Char :=
  ((s.dropWhile isPySpace).reverse.dropWhile isPySpace).reverse

/-- A value stored in a summary record: a string or a list of strings
(the only value shapes the markdown renderer distinguishes). -/
inductive SVal where
  | s (v : List Char)
  | l (vs : List (List Char))
deriving DecidableEq

/-- Rendering a value inside an f-string.  A list renders as its Python
repr; quote escaping inside items is not modelled (no list value reaches
an f-string in any property below). -/
def mdRender : SVal → List Char
  | .s v => v
  | .l vs =>
    toL "[" ++ List.intercalate (toL ", ")
      (vs.map (fun v => '\x27' :: (v ++ ['\x27']))) ++ toL "]"

/-- `', '.join(value)`: joins a list of strings; applied to a string it
joins its characters (Python iterates the string). -/
def mdJoinVal : SVal → List Char
  | .l vs => List.intercalate (toL ", ") vs
  | .s v => List.intercalate (toL ", ") (v.map (fun c => [c]))

/-- The `- {point}` bullet lines for the `key_points` value. -/
def mdPointLines : SVal → List (List Char)
  | .l vs => vs.map (fun p => toL "- " ++ p)
  | .s v => v.map (fun c => toL "- " ++ [c])

/-- Python `str.title()`, restricted to ASCII letters: a letter is
uppercased after a non-letter and lowercased otherwise. -/
def pyTitleAux : Bool → List Char → List Char
  | _, [] => []
  | prevAlpha, c :: rest =>
    if c.isAlpha then
      (if prevAlpha then c.toLower else c.toUpper) :: pyTitleAux true rest
    else c :: pyTitleAux false rest

/-- `key.replace('_', ' ').title()` as used for the extra-section
headings. -/
def sectionHeading (key : List Char) : List Char :=
  pyTitleAux false (pyReplaceChar '_' ' ' key)

/-- The keys `_summary_to_markdown` treats specially and excludes from the
extra-section loop. -/
def knownSummaryKeys : List (List Char) :=
  [toL "title", toL "authors", toL "published", toL "categories",
   toL "summary", toL "key_points", toL "created"]

/-- `FileManager._summary_to_markdown` (lines 364-414): the `lines` list
the function joins with newlines.  Dictionary membership tests and lookups
are combined into one `pyDictGet` match per key. -/
def summaryToMdLines (summary_data : List (List Char × SVal)) : List (List Char) :=
  (match pyDictGet summary_data (toL "title") with
   | some v => [toL "# " ++ mdRender v, []]
   | none => []) ++
  (match pyDictGet summary_data (toL "authors") with
   | some v => [toL "**Authors:** " ++ mdJoinVal v]
   | none => []) ++
  (match pyDictGet summary_data (toL "published") with
   | some v => [toL "**Published:** " ++ mdRender v]
   | none => []) ++
  (match pyDictGet summary_data (toL "categories") with
   | some v => [toL "**Categories:** " ++ mdJoinVal v]
   | none => []) ++
  [[]] ++
  (match pyDictGet summary_data (toL "summary") with
   | some v => [toL "## Summary", [], mdRender v, []]
   | none => []) ++
  (match pyDictGet summary_data (toL "key_points") with
   | some v => [toL "## Key Points", []] ++ mdPointLines v ++ [[]]
   | none => []) ++
  (summary_data.filterMap (fun e =>
    if e.1 ∈ knownSummaryKeys then none
    else match e.2 with
      | .s v => if pyStrip v ≠ [] then
          some [toL "## " ++ sectionHeading e.1, [], v, []] else none
      | .l _ => none)).flatten

/-- `_summary_to_markdown` output: the lines joined with newlines.  This
is also the content written by `save_summary` with `format_type="markdown"`. -/
def summaryToMarkdown (summary_data : List (List Char × SVal)) : List Char :=
  List.intercalate (toL "\n") (summaryToMdLines summary_data)

/-- The non-blank line closest above position `i`, used to state what
"immediately precedes" a heading up to blank lines. -/
def prevNonBlankLine (lines : List (List Char)) (i : Nat) : Option (List Char) :=
  ((lines.take i).filter (fun l => l ≠ [])).getLast?

/-- C4 counterexample: a record with `title`, `authors` and `summary`.
The `## Summary` heading (line index 4) is immediately preceded — up to
blank lines — by the `**Authors:**` metadata line, not by the title
heading, so the claim fails for this record. -/
theorem c4_counterexample :
    summaryToMdLines
      [(toL "title", .s (toL "Attention Is All You Need")),
       (toL "authors", .l [toL "Ashish Vaswani"]),
       (toL "summary", .s (toL "The transformer architecture."))] =
      [toL "# Attention Is All You Need", [],
       toL "**Authors:** Ashish Vaswani", [],
       toL "## Summary", [],
       toL "The transformer architecture.", []] ∧
    (summaryToMdLines
      [(toL "title", .s (toL "Attention Is All You Need")),
       (toL "authors", .l [toL "Ashish Vaswani"]),
       (toL "summary", .s (toL "The transformer architecture."))])[4]? =
      some (toL "## Summary") ∧
    prevNonBlankLine (summaryToMdLines
      [(toL "title", .s (toL "Attention Is All You Need")),
       (toL "authors", .l [toL "Ashish Vaswani"]),
       (toL "summary", .s (toL "The transformer architecture."))]) 4 =
      some (toL "**Authors:** Ashish Vaswani") ∧
    toL "**Authors:** Ashish Vaswani" ≠ toL "# Attention Is All You Need" := by
  refine ⟨by decide, by decide, by decide, by decide⟩

/-- C4 amended: for records carrying `title` and `summary` (as strings)
and none of `authors`, `published`, `categories`, the markdown's line list
starts with the `# <title>` heading followed only by blank lines up to the
`## Summary` heading, which `summary` and the remaining sections follow. -/
theorem c4_amended_title_precedes_summary
    (summary_data : List (List Char × SVal)) (t s : List Char)
    (htitle : pyDictGet summary_data (toL "title") = some (.s t))
    (hsummary : pyDictGet summary_data (toL "summary") = some (.s s))
    (hauthors : pyDictGet summary_data (toL "authors") = none)
    (hpub : pyDictGet summary_data (toL "published") = none)
    (hcat : pyDictGet summary_data (toL "categories") = none) :
    ∃ rest, summaryToMdLines summary_data =
      (toL "# " ++ t) :: ([] : List Char) :: ([] : List Char) ::
      toL "## Summary" :: ([] : List Char) :: s :: ([] : List Char) :: rest := by
  refine ⟨(match pyDictGet summary_data (toL "key_points") with
   | some v => [toL "## Key Points", []] ++ mdPointLines v ++ [[]]
   | none => []) ++
  (summary_data.filterMap (fun e =>
    if e.1 ∈ knownSummaryKeys then none
    else match e.2 with
      | .s v => if pyStrip v ≠ [] then
          some [toL "## " ++ sectionHeading e.1, [], v, []] else none
      | .l _ => none)).flatten, ?_⟩
  rw [summaryToMdLines, htitle, hsummary, hauthors, hpub, hcat]
  simp [mdRender]

/-- Witness for C4 at a concrete title-and-summary-only record. -/
theorem c4_amended_title_precedes_summary_witness :
    ∃ rest, summaryToMdLines
        [(toL "title", .s (toL "Attention Is All You Need")),
         (toL "summary", .s (toL "The transformer architecture."))] =
      (toL "# " ++ toL "Attention Is All You Need") :: ([] : List Char) ::
      ([] : List Char) :: toL "## Summary" :: ([] : List Char) ::
      toL "The transformer architecture." :: ([] : List Char) :: rest :=
  c4_amended_title_precedes_summary
    [(toL "title", .s (toL "Attention Is All You Need")),
     (toL "summary", .s (toL "The transformer architecture."))]
    (toL "Attention Is All You Need") (toL "The transformer architecture.")
    (by decide) (by decide) (by decide) (by decide) (by decide)

/-! ### A model of Python `json.dumps` / `json.loads`

`save_notes` serialises the frontmatter values with `json.dumps` (default
options: `ensure_ascii=True`, separators `", "`/`": "`), and
`_parse_note_file` recovers them with `json.loads`.  Strings are modelled
over Lean `Char` (Unicode scalar values); a `\uXXXX` escape denoting a
lone surrogate — which cannot be a scalar value — decodes to the
replacement `'\x00'`, a case that never arises from `json.dumps` output
of scalar strings. -/

/-- A parsed JSON value.  Numeric literals keep their lexeme (no claim
below depends on numeric decoding, which would involve floats). -/
inductive JValue where
  | str (s : List Char)
  | arr (vs : List JValue)
  | obj (fields : List (List Char × JValue))
  | boolean (b : Bool)
  | null
  | num (raw : List Char)

/-- Lowercase hex digit, as `json.dumps` emits in `\uXXXX` escapes. -/
def hexDigitChar (n : Nat) : Char :=
  if n < 10 then Char.ofNat (48 + n) else Char.ofNat (87 + n)

/-- Four lowercase hex digits for `n < 0x10000`. -/
def encodeHex4 (n : Nat) : List Char :=
  [hexDigitChar (n / 4096 % 16), hexDigitChar (n / 256 % 16),
   hexDigitChar (n / 16 % 16), hexDigitChar (n % 16)]

/-- The `json.dumps` (`ensure_ascii=True`) encoding of one character:
the two-character escapes for `"`, `\`, and the control characters with
short names; `\uXXXX` for other controls and all non-ASCII characters
(as a surrogate pair beyond the BMP); the character itself otherwise. -/
def escChar (c : Char) : List Char :=
  if c = '"' then ['\\', '"']
  else if c = '\\' then ['\\', '\\']
  else if c = '\n' then ['\\', 'n']
  else if c = '\r' then ['\\', 'r']
  else if c = '\t' then ['\\', 't']
  else if c = '\x08' then ['\\', 'b']
  else if c = '\x0c' then ['\\', 'f']
  else if c.toNat < 0x20 then '\\' :: 'u' :: encodeHex4 c.toNat
  else if c.toNat < 0x80 then [c]
  else if c.toNat < 0x10000 then '\\' :: 'u' :: encodeHex4 c.toNat
  else
    ('\\' :: 'u' :: encodeHex4 (0xD800 + (c.toNat - 0x10000) / 0x400)) ++
    ('\\' :: 'u' :: encodeHex4 (0xDC00 + (c.toNat - 0x10000) % 0x400))

/-- The escaped body of a string literal. -/
def escBody : List Char → List Char
  | [] => []
  | c :: s => escChar c ++ escBody s

/-- `json.dumps` of a string: quote, escaped body, quote. -/
def dumpStr (s : List Char) : List Char := '"' :: (escBody s ++ ['"'])

/-- `json.dumps` of a list of strings: bracketed, `", "`-separated
string literals (Python's default separators). -/
def dumpStrList (ts : List (List Char)) : List Char :=
  toL "[" ++ List.intercalate (toL ", ") (ts.map dumpStr) ++ toL "]"

/-- JSON whitespace. -/
def isJsonWs (c : Char) : Bool := c = ' ' || c = '\t' || c = '\n' || c = '\r'

/-- Skip JSON whitespace. -/
def skipWs (s : List Char) : List Char := s.dropWhile isJsonWs

/-- Hex digit value (either case), as `json.loads` accepts. -/
def hexVal (c : Char) : Option Nat :=
  if '0' ≤ c ∧ c ≤ '9' then some (c.toNat - 48)
  else if 'a' ≤ c ∧ c ≤ 'f' then some (c.toNat - 87)
  else if 'A' ≤ c ∧ c ≤ 'F' then some (c.toNat - 55)
  else none

/-- Parse exactly four hex digits. -/
def parseHex4 : List Char → Option (Nat × List Char)
  | a :: b :: c :: d :: rest =>
    match hexVal a, hexVal b, hexVal c, hexVal d with
    | some x, some y, some z, some w => some (((x * 16 + y) * 16 + z) * 16 + w, rest)
    | _, _, _, _ => none
  | _ => none

/-- The single-character escapes of JSON strings. -/
def escSimple (e : Char) : Option Char :=
  if e = '"' then some '"'
  else if e = '\\' then some '\\'
  else if e = '/' then some '/'
  else if e = 'b' then some '\x08'
  else if e = 'f' then some '\x0c'
  else if e = 'n' then some '\n'
  else if e = 'r' then some '\r'
  else if e = 't' then some '\t'
  else none

/-- Parse one character of a JSON string body: a raw character (raw
controls are rejected, as in Python's strict mode), a simple escape, or a
`\uXXXX` escape with surrogate-pair combination. -/
def parseStrChar : List Char → Option (Char × List Char)
  | [] => none
  | c :: rest =>
    if c = '"' then none
    else if c = '\\' then
      match rest with
      | [] => none
      | e :: rest2 =>
        if e = 'u' then
          match parseHex4 rest2 with
          | none => none
          | some (n, rest3) =>
            if 0xD800 ≤ n ∧ n ≤ 0xDBFF then
              match rest3 with
              | b1 :: b2 :: rest4 =>
                if b1 = '\\' ∧ b2 = 'u' then
                  match parseHex4 rest4 with
                  | some (m, rest5) =>
                    if 0xDC00 ≤ m ∧ m ≤ 0xDFFF then
                      some (Char.ofNat (0x10000 + (n - 0xD800) * 0x400 + (m - 0xDC00)), rest5)
                    else some (Char.ofNat n, rest3)
                  | none => some (Char.ofNat n, rest3)
                else some (Char.ofNat n, rest3)
              | _ => some (Char.ofNat n, rest3)
            else some (Char.ofNat n, rest3)
        else
          match escSimple e with
          | some d => some (d, rest2)
          | none => none
    else if c.toNat < 0x20 then none
    else some (c, rest)

/-- Parse a JSON string body up to the closing quote. -/
def parseStrBody : Nat → List Char → Option (List Char × List Char)
  | 0, _ => none
  | fuel + 1, s =>
    match s with
    | [] => none
    | c :: rest =>
      if c = '"' then some ([], rest)
      else
        match parseStrChar (c :: rest) with
        | none => none
        | some (d, rest2) =>
          (parseStrBody fuel rest2).map (fun p => (d :: p.1, p.2))

/-- Integer part of a JSON number (`0` or a nonzero digit run). -/
def numIntPart : List Char → Option (List Char)
  | [] => none
  | c :: r =>
    if c = '0' then some r
    else if c.isDigit then some (r.dropWhile Char.isDigit)
    else none

/-- Optional fraction part. -/
def numFracPart (s : List Char) : Option (List Char) :=
  match s with
  | c :: r =>
    if c = '.' then
      if (r.takeWhile Char.isDigit) ≠ [] then some (r.dropWhile Char.isDigit) else none
    else some s
  | [] => some []

/-- Optional exponent part. -/
def numExpPart (s : List Char) : Option (List Char) :=
  match s with
  | c :: r =>
    if c = 'e' ∨ c = 'E' then
      let r2 := match r with
        | d :: r3 => if d = '+' ∨ d = '-' then r3 else d :: r3
        | [] => []
      if (r2.takeWhile Char.isDigit) ≠ [] then some (r2.dropWhile Char.isDigit) else none
    else some s
  | [] => some []

/-- Parse a JSON number, keeping its lexeme. -/
def parseNum (s : List Char) : Option (JValue × List Char) :=
  let s1 := match s with
    | c :: r => if c = '-' then r else c :: r
    | [] => []
  match numIntPart s1 with
  | none => none
  | some r1 =>
    match numFracPart r1 with
    | none => none
    | some r2 =>
      match numExpPart r2 with
      | none => none
      | some r3 => some (.num (s.take (s.length - r3.length)), r3)

mutual

/-- Parse one JSON value (fuel-indexed; the callers supply ample fuel). -/
def parseVal : Nat → List Char → Option (JValue × List Char)
  | 0, _ => none
  | fuel + 1, s =>
    match skipWs s with
    | [] => none
    | c :: rest =>
      if c = '"' then
        (parseStrBody (rest.length + 1) rest).map (fun p => (JValue.str p.1, p.2))
      else if c = '[' then
        match skipWs rest with
        | [] => none
        | d :: r2 =>
          if d = ']' then some (.arr [], r2)
          else
            match parseVal fuel (d :: r2) with
            | none => none
            | some (v, r3) =>
              (parseArrTail fuel r3).map (fun p => (JValue.arr (v :: p.1), p.2))
      else if c = '\x7b' then
        match skipWs rest with
        | [] => none
        | d :: r2 =>
          if d = '\x7d' then some (.obj [], r2)
          else
            match parseObjMember fuel (d :: r2) with
            | none => none
            | some (kv, r3) =>
              (parseObjTail fuel r3).map (fun p => (JValue.obj (kv :: p.1), p.2))
      else if c = 't' then
        if rest.take 3 = toL "rue" then some (.boolean true, rest.drop 3) else none
      else if c = 'f' then
        if rest.take 4 = toL "alse" then some (.boolean false, rest.drop 4) else none
      else if c = 'n' then
        if rest.take 3 = toL "ull" then some (.null, rest.drop 3) else none
      else parseNum (c :: rest)

/-- After one array element: `, value` repeated until `]`. -/
def parseArrTail : Nat → List Char → Option (List JValue × List Char)
  | 0, _ => none
  | fuel + 1, s =>
    match skipWs s with
    | [] => none
    | d :: r =>
      if d = ']' then some ([], r)
      else if d = ',' then
        match parseVal fuel r with
        | none => none
        | some (v, r2) => (parseArrTail fuel r2).map (fun p => (v :: p.1, p.2))
      else none

/-- One `"key": value` object member. -/
def parseObjMember : Nat → List Char → Option ((List Char × JValue) × List Char)
  | 0, _ => none
  | fuel + 1, s =>
    match skipWs s with
    | [] => none
    | c :: rest =>
      if c = '"' then
        match parseStrBody (rest.length + 1) rest with
        | none => none
        | some (key, r2) =>
          match skipWs r2 with
          | [] => none
          | d :: r3 =>
            if d = ':' then
              (parseVal fuel r3).map (fun p => ((key, p.1), p.2))
            else none
      else none

/-- After one object member: `, member` repeated until the closing brace. -/
def parseObjTail : Nat → List Char → Option (List (List Char × JValue) × List Char)
  | 0, _ => none
  | fuel + 1, s =>
    match skipWs s with
    | [] => none
    | d :: r =>
      if d = '\x7d' then some ([], r)
      else if d = ',' then
        match parseObjMember fuel r with
        | none => none
        | some (kv, r2) => (parseObjTail fuel r2).map (fun p => (kv :: p.1, p.2))
      else none

end

/-- `json.loads`: parse one value and require only whitespace after it.
(`NaN`/`Infinity` extensions are not modelled; no frontmatter value uses
them.) -/
def jsonLoads (s : List Char) : Option JValue :=
  match parseVal (2 * s.length + 4) s with
  | some (v, rest) => if skipWs rest = [] then some v else none
  | none => none

lemma char_toNat_valid (c : Char) :
    c.toNat < 0xD800 ∨ (0xDFFF < c.toNat ∧ c.toNat < 0x110000) := c.valid

lemma hexVal_hexDigitChar {k : Nat} (h : k < 16) : hexVal (hexDigitChar k) = some k := by
  interval_cases k <;> decide

lemma parseHex4_encodeHex4 (n : Nat) (h : n < 0x10000) (r : List Char) :
    parseHex4 (encodeHex4 n ++ r) = some (n, r) := by
  have e : ((n / 4096 % 16 * 16 + n / 256 % 16) * 16 + n / 16 % 16) * 16 + n % 16 = n := by
    omega
  have h1 := hexVal_hexDigitChar (k := n / 4096 % 16) (Nat.mod_lt _ (by norm_num))
  have h2 := hexVal_hexDigitChar (k := n / 256 % 16) (Nat.mod_lt _ (by norm_num))
  have h3 := hexVal_hexDigitChar (k := n / 16 % 16) (Nat.mod_lt _ (by norm_num))
  have h4 := hexVal_hexDigitChar (k := n % 16) (Nat.mod_lt _ (by norm_num))
  simp only [encodeHex4, List.cons_append, List.nil_append, parseHex4, h1, h2, h3, h4]
  rw [e]

lemma escChar_cons (c : Char) : ∃ d t, escChar c = d :: t ∧ d ≠ '"' := by
  by_cases h1 : c = '"'
  · exact ⟨'\\', _, by rw [escChar, if_pos h1], by decide⟩
  by_cases h2 : c = '\\'
  · exact ⟨'\\', _, by rw [escChar, if_neg h1, if_pos h2], by decide⟩
  by_cases h3 : c = '\n'
  · exact ⟨'\\', _, by rw [escChar, if_neg h1, if_neg h2, if_pos h3], by decide⟩
  by_cases h4 : c = '\r'
  · exact ⟨'\\', _, by rw [escChar, if_neg h1, if_neg h2, if_neg h3, if_pos h4], by decide⟩
  by_cases h5 : c = '\t'
  · exact ⟨'\\', _, by rw [escChar, if_neg h1, if_neg h2, if_neg h3, if_neg h4,
      if_pos h5], by decide⟩
  by_cases h6 : c = '\x08'
  · exact ⟨'\\', _, by rw [escChar, if_neg h1, if_neg h2, if_neg h3, if_neg h4,
      if_neg h5, if_pos h6], by decide⟩
  by_cases h7 : c = '\x0c'
  · exact ⟨'\\', _, by rw [escChar, if_neg h1, if_neg h2, if_neg h3, if_neg h4,
      if_neg h5, if_neg h6, if_pos h7], by decide⟩
  by_cases h8 : c.toNat < 0x20
  · exact ⟨'\\', _, by rw [escChar, if_neg h1, if_neg h2, if_neg h3, if_neg h4,
      if_neg h5, if_neg h6, if_neg h7, if_pos h8], by decide⟩
  by_cases h9 : c.toNat < 0x80
  · exact ⟨c, [], by rw [escChar, if_neg h1, if_neg h2, if_neg h3, if_neg h4,
      if_neg h5, if_neg h6, if_neg h7, if_neg h8, if_pos h9], h1⟩
  by_cases h10 : c.toNat < 0x10000
  · exact ⟨'\\', _, by rw [escChar, if_neg h1, if_neg h2, if_neg h3, if_neg h4,
      if_neg h5, if_neg h6, if_neg h7, if_neg h8, if_neg h9, if_pos h10], by decide⟩
  · refine ⟨'\\', 'u' :: (encodeHex4 (0xD800 + (c.toNat - 0x10000) / 0x400) ++
      ('\\' :: 'u' :: encodeHex4 (0xDC00 + (c.toNat - 0x10000) % 0x400))), ?_, by decide⟩
    rw [escChar, if_neg h1, if_neg h2, if_neg h3, if_neg h4,
      if_neg h5, if_neg h6, if_neg h7, if_neg h8, if_neg h9, if_neg h10]
    simp

lemma parseStrChar_escChar (c : Char) (r : List Char) :
    parseStrChar (escChar c ++ r) = some (c, r) := by
  by_cases h1 : c = '"'
  · subst h1; simp [escChar, parseStrChar, escSimple]
  by_cases h2 : c = '\\'
  · subst h2; simp [escChar, parseStrChar, escSimple]
  by_cases h3 : c = '\n'
  · subst h3; simp [escChar, parseStrChar, escSimple]
  by_cases h4 : c = '\r'
  · subst h4; simp [escChar, parseStrChar, escSimple]
  by_cases h5 : c = '\t'
  · subst h5; simp [escChar, parseStrChar, escSimple]
  by_cases h6 : c = '\x08'
  · subst h6; simp [escChar, parseStrChar, escSimple]
  by_cases h7 : c = '\x0c'
  · subst h7; simp [escChar, parseStrChar, escSimple]
  by_cases h8 : c.toNat < 0x20
  · rw [escChar, if_neg h1, if_neg h2, if_neg h3, if_neg h4, if_neg h5, if_neg h6,
      if_neg h7, if_pos h8]
    have hp : ∀ rr, parseHex4 (encodeHex4 c.toNat ++ rr) = some (c.toNat, rr) :=
      fun rr => parseHex4_encodeHex4 c.toNat (by omega) rr
    have hs : ¬(0xD800 ≤ c.toNat ∧ c.toNat ≤ 0xDBFF) := by omega
    simp [parseStrChar, hp, hs, Char.ofNat_toNat]
  by_cases h9 : c.toNat < 0x80
  · rw [escChar, if_neg h1, if_neg h2, if_neg h3, if_neg h4, if_neg h5, if_neg h6,
      if_neg h7, if_neg h8, if_pos h9]
    simp [parseStrChar, h1, h2, h8]
  by_cases h10 : c.toNat < 0x10000
  · rw [escChar, if_neg h1, if_neg h2, if_neg h3, if_neg h4, if_neg h5, if_neg h6,
      if_neg h7, if_neg h8, if_neg h9, if_pos h10]
    have hp : ∀ rr, parseHex4 (encodeHex4 c.toNat ++ rr) = some (c.toNat, rr) :=
      fun rr => parseHex4_encodeHex4 c.toNat (by omega) rr
    have hs : ¬(0xD800 ≤ c.toNat ∧ c.toNat ≤ 0xDBFF) := by
      rcases char_toNat_valid c with hv | hv <;> omega
    simp [parseStrChar, hp, hs, Char.ofNat_toNat]
  · rw [escChar, if_neg h1, if_neg h2, if_neg h3, if_neg h4, if_neg h5, if_neg h6,
      if_neg h7, if_neg h8, if_neg h9, if_neg h10]
    have hlt : c.toNat < 0x110000 := by
      rcases char_toNat_valid c with hv | hv <;> omega
    have hge : 0x10000 ≤ c.toNat := by omega
    have hpHi : ∀ rr, parseHex4 (encodeHex4 (0xD800 + (c.toNat - 0x10000) / 0x400) ++ rr) =
        some (0xD800 + (c.toNat - 0x10000) / 0x400, rr) :=
      fun rr => parseHex4_encodeHex4 _ (by omega) rr
    have hpLo : ∀ rr, parseHex4 (encodeHex4 (0xDC00 + (c.toNat - 0x10000) % 0x400) ++ rr) =
        some (0xDC00 + (c.toNat - 0x10000) % 0x400, rr) :=
      fun rr => parseHex4_encodeHex4 _ (by omega) rr
    have hrHi : 0xD800 ≤ 0xD800 + (c.toNat - 0x10000) / 0x400 ∧
        0xD800 + (c.toNat - 0x10000) / 0x400 ≤ 0xDBFF := ⟨by omega, by omega⟩
    have hrLo : 0xDC00 ≤ 0xDC00 + (c.toNat - 0x10000) % 0x400 ∧
        0xDC00 + (c.toNat - 0x10000) % 0x400 ≤ 0xDFFF := ⟨by omega, by omega⟩
    have harith : 0x10000 + (0xD800 + (c.toNat - 0x10000) / 0x400 - 0xD800) * 0x400 +
        (0xDC00 + (c.toNat - 0x10000) % 0x400 - 0xDC00) = c.toNat := by omega
    simp only [List.cons_append, List.append_assoc]
    simp [parseStrChar, hpHi, hpLo, hrHi, hrLo]
    rw [show 65536 + (c.toNat - 65536) / 1024 * 1024 + (c.toNat - 65536) % 1024 = c.toNat
      from by omega, Char.ofNat_toNat]

lemma escBody_append (s1 s2 : List Char) :
    escBody (s1 ++ s2) = escBody s1 ++ escBody s2 := by
  induction s1 with
  | nil => rfl
  | cons c s ih => simp [escBody, ih]

lemma escBody_length_ge (s : List Char) : s.length ≤ (escBody s).length := by
  induction s with
  | nil => simp [escBody]
  | cons c s ih =>
    rcases escChar_cons c with ⟨d, t, hdt, _⟩
    simp only [escBody, List.length_cons, List.length_append, hdt]
    omega

lemma skipWs_cons_not {c : Char} (h : isJsonWs c = false) (X : List Char) :
    skipWs (c :: X) = c :: X := by
  simp [skipWs, List.dropWhile_cons, h]

lemma skipWs_cons_ws {c : Char} (h : isJsonWs c = true) (X : List Char) :
    skipWs (c :: X) = skipWs X := by
  simp [skipWs, List.dropWhile_cons, h]

lemma parseStrBody_escBody :
    ∀ (s : List Char) (rest : List Char) (fuel : Nat), s.length < fuel →
      parseStrBody fuel (escBody s ++ '"' :: rest) = some (s, rest)
  | [], rest, fuel, h => by
    cases fuel with
    | zero => omega
    | succ f => simp [parseStrBody, escBody]
  | c :: s, rest, fuel, h => by
    cases fuel with
    | zero => omega
    | succ f =>
      rcases escChar_cons c with ⟨d, t, hdt, hdq⟩
      have hshape : escBody (c :: s) ++ '"' :: rest =
          d :: (t ++ (escBody s ++ '"' :: rest)) := by
        simp [escBody, hdt]
      rw [hshape, parseStrBody, if_neg hdq]
      have hpc : parseStrChar (d :: (t ++ (escBody s ++ '"' :: rest))) =
          some (c, escBody s ++ '"' :: rest) := by
        have h2 : d :: (t ++ (escBody s ++ '"' :: rest)) =
            escChar c ++ (escBody s ++ '"' :: rest) := by simp [hdt]
        rw [h2, parseStrChar_escChar]
      rw [hpc]
      show Option.map (fun p => (c :: p.1, p.2))
        (parseStrBody f (escBody s ++ '"' :: rest)) = some (c :: s, rest)
      rw [parseStrBody_escBody s rest f
        (by simp only [List.length_cons] at h; omega)]
      rfl

lemma parseVal_dumpStr (s rest : List Char) (fuel : Nat) :
    parseVal (fuel + 1) (dumpStr s ++ rest) = some (.str s, rest) := by
  have h1 : dumpStr s ++ rest = '"' :: (escBody s ++ '"' :: rest) := by
    simp [dumpStr]
  have hlen : s.length < (escBody s ++ '"' :: rest).length + 1 := by
    have := escBody_length_ge s
    simp only [List.length_append, List.length_cons]
    omega
  rw [h1, parseVal, skipWs_cons_not (by decide)]
  show Option.map (fun p => (JValue.str p.1, p.2))
    (parseStrBody ((escBody s ++ '"' :: rest).length + 1) (escBody s ++ '"' :: rest)) =
    some (.str s, rest)
  rw [parseStrBody_escBody s rest _ hlen]
  rfl

/-- The text of a `", "`-separated dumped string list after its first
element, ending with the closing bracket. -/
def arrTailText (ts : List (List Char)) (rest : List Char) : List Char :=
  match ts with
  | [] => ']' :: rest
  | t :: ts2 => ',' :: ' ' :: (dumpStr t ++ arrTailText ts2 rest)

lemma intercalate_cons_cons (sep a b : List Char) (l : List (List Char)) :
    List.intercalate sep (a :: b :: l) = a ++ (sep ++ List.intercalate sep (b :: l)) := by
  simp [List.intercalate, List.intersperse_cons₂]

lemma interTail : ∀ (ts2 : List (List Char)) (t rest : List Char),
    (List.intercalate (toL ", ") (List.map dumpStr (t :: ts2))) ++ ']' :: rest =
      dumpStr t ++ arrTailText ts2 rest
  | [], t, rest => by
    simp [List.intercalate, arrTailText]
  | u :: ts3, t, rest => by
    rw [List.map_cons, List.map_cons, intercalate_cons_cons]
    have ih := interTail ts3 u rest
    rw [List.map_cons] at ih
    simp only [List.append_assoc, arrTailText]
    rw [← ih]
    simp [toL]

lemma dumpStrList_nil_shape (rest : List Char) :
    dumpStrList [] ++ rest = '[' :: ']' :: rest := by
  simp [dumpStrList, List.intercalate, toL]

lemma dumpStrList_cons_shape (t : List Char) (ts2 : List (List Char)) (rest : List Char) :
    dumpStrList (t :: ts2) ++ rest = '[' :: (dumpStr t ++ arrTailText ts2 rest) := by
  rw [dumpStrList]
  have h := interTail ts2 t rest
  simp only [toL] at h ⊢
  simp only [List.append_assoc]
  rw [← h]
  simp

lemma parseVal_ws_cons {c : Char} (h : isJsonWs c = true) (f : Nat) (X : List Char) :
    parseVal (f + 1) (c :: X) = parseVal (f + 1) X := by
  simp only [parseVal]
  rw [skipWs_cons_ws h]

lemma parseArrTail_arrTailText :
    ∀ (ts : List (List Char)) (rest : List Char) (fuel : Nat), ts.length < fuel →
      parseArrTail fuel (arrTailText ts rest) = some (ts.map JValue.str, rest)
  | [], rest, fuel, h => by
    cases fuel with
    | zero => omega
    | succ f =>
      show parseArrTail (f + 1) (']' :: rest) = some ([], rest)
      rw [parseArrTail, skipWs_cons_not (by decide)]
      simp
  | t :: ts2, rest, fuel, h => by
    cases fuel with
    | zero => omega
    | succ f =>
      have hf : ts2.length < f := by
        simp only [List.length_cons] at h; omega
      cases f with
      | zero => omega
      | succ f2 =>
        show parseArrTail (f2 + 1 + 1)
          (',' :: ' ' :: (dumpStr t ++ arrTailText ts2 rest)) = _
        rw [parseArrTail, skipWs_cons_not (by decide)]
        have hv : parseVal (f2 + 1) (' ' :: (dumpStr t ++ arrTailText ts2 rest)) =
            some (.str t, arrTailText ts2 rest) := by
          rw [parseVal_ws_cons (by decide), parseVal_dumpStr]
        simp only [if_neg (by decide : ¬(',' = ']')), if_pos (rfl : ',' = ','), hv]
        rw [parseArrTail_arrTailText ts2 rest (f2 + 1) hf]
        rfl

lemma parseVal_dumpStrList (ts : List (List Char)) (rest : List Char) (fuel : Nat)
    (h : ts.length < fuel) :
    parseVal (fuel + 1) (dumpStrList ts ++ rest) = some (.arr (ts.map .str), rest) := by
  cases ts with
  | nil =>
    rw [dumpStrList_nil_shape]
    rw [parseVal, skipWs_cons_not (by decide)]
    simp [skipWs, isJsonWs, List.dropWhile_cons]
  | cons t ts2 =>
    cases fuel with
    | zero => omega
    | succ f2 =>
      have hshape : dumpStr t ++ arrTailText ts2 rest =
          '"' :: (escBody t ++ '"' :: arrTailText ts2 rest) := by
        simp [dumpStr]
      rw [dumpStrList_cons_shape]
      rw [hshape, parseVal, skipWs_cons_not (by decide)]
      have hv : parseVal (f2 + 1) ('"' :: (escBody t ++ '"' :: arrTailText ts2 rest)) =
          some (.str t, arrTailText ts2 rest) := by
        rw [← hshape, parseVal_dumpStr]
      have ht : parseArrTail (f2 + 1) (arrTailText ts2 rest) =
          some (ts2.map JValue.str, rest) :=
        parseArrTail_arrTailText ts2 rest (f2 + 1)
          (by simp only [List.length_cons] at h; omega)
      simp [skipWs, isJsonWs, List.dropWhile_cons, hv, ht]

lemma dumpStr_length_ge (s : List Char) : 2 ≤ (dumpStr s).length := by
  simp [dumpStr]

lemma arrTailText_length_ge :
    ∀ (ts : List (List Char)) (rest : List Char),
      ts.length ≤ (arrTailText ts rest).length
  | [], rest => by simp [arrTailText]
  | t :: ts2, rest => by
    have ih := arrTailText_length_ge ts2 rest
    simp only [arrTailText, List.length_cons, List.length_append]
    omega

lemma dumpStrList_length_ge (ts : List (List Char)) :
    ts.length ≤ (dumpStrList ts).length := by
  cases ts with
  | nil => simp
  | cons t ts2 =>
    have h := dumpStrList_cons_shape t ts2 []
    rw [List.append_nil] at h
    rw [h]
    have h2 := arrTailText_length_ge ts2 []
    simp only [List.length_cons, List.length_append]
    omega

lemma jsonLoads_dumpStr (s : List Char) : jsonLoads (dumpStr s) = some (.str s) := by
  have h2 := parseVal_dumpStr s [] (2 * (dumpStr s).length + 3)
  rw [List.append_nil] at h2
  rw [jsonLoads,
    show 2 * (dumpStr s).length + 4 = (2 * (dumpStr s).length + 3) + 1 from rfl, h2]
  simp [skipWs]

lemma jsonLoads_dumpStrList (ts : List (List Char)) :
    jsonLoads (dumpStrList ts) = some (.arr (ts.map .str)) := by
  have hlen : ts.length < 2 * (dumpStrList ts).length + 3 := by
    have := dumpStrList_length_ge ts
    omega
  have h2 := parseVal_dumpStrList ts [] (2 * (dumpStrList ts).length + 3) hlen
  rw [List.append_nil] at h2
  rw [jsonLoads,
    show 2 * (dumpStrList ts).length + 4 = (2 * (dumpStrList ts).length + 3) + 1 from rfl,
    h2]
  simp [skipWs]

/-! ### `file_manager.save_notes` and `_parse_note_file` -/

/-- Python `s.split(sep, 1)` for non-empty `sep`: `some (before, after)`
at the first occurrence, `none` when `sep` does not occur (Python then
returns the one-element list `[s]`). -/
def splitOnce (sep : List Char) : List Char → Option (List Char × List Char)
  | [] => none
  | c :: rest =>
    if sep.isPrefixOf (c :: rest) then some ([], (c :: rest).drop sep.length)
    else (splitOnce sep rest).map (fun p => (c :: p.1, p.2))

/-- Python `s.split(sep)` for a single-character separator (as used with
`'\n'`): split at every occurrence; always non-empty. -/
def pySplitAll (sep : Char) : List Char → List (List Char)
  | [] => [[]]
  | c :: rest =>
    if c = sep then [] :: pySplitAll sep rest
    else
      match pySplitAll sep rest with
      | a :: as => (c :: a) :: as
      | [] => [[c]]

/-- The four frontmatter `key: value` lines written by `save_notes`
(joined here with the newlines that separate them): `title`, `created`,
`tags`, `metadata` in insertion order, each value JSON-encoded
(`metadata` defaults to the empty dictionary `\x7b\x7d`). -/
def fmLines (title : List Char) (tags : List (List Char)) (timestamp : List Char) :
    List Char :=
  toL "title: " ++ (dumpStr title ++ (toL "\ncreated: " ++ (dumpStr timestamp ++
    (toL "\ntags: " ++ (dumpStrList tags ++ toL "\nmetadata: \x7b\x7d")))))

/-- `FileManager.save_notes` (lines 47-102), with the
`datetime.now().isoformat()` timestamp passed explicitly and `metadata`
at its default `\x7b\x7d`: the full file content written, namely
`---\n`, the `key: value` lines, `---\n\n`, then the body. -/
def saveNotesContent (title content : List Char) (tags : List (List Char))
    (timestamp : List Char) : List Char :=
  toL "---\n" ++ (fmLines title tags timestamp ++ (toL "\n---\n\n" ++ content))

/-- A frontmatter value as stored by `_parse_note_file`: the decoded JSON
value when `json.loads` succeeds, the literal string otherwise. -/
inductive PVal where
  | json (v : JValue)
  | lit (s : List Char)

/-- One iteration of the frontmatter loop of `_parse_note_file`: a line
with a colon contributes `key.strip()` mapped to the parsed value; a line
without one is skipped. -/
def parseFrontLine (line : List Char) : Option (List Char × PVal) :=
  match splitOnce [':'] line with
  | some (k, v) =>
    some (pyStrip k,
      match jsonLoads (pyStrip v) with
      | some j => PVal.json j
      | none => PVal.lit (pyStrip v))
  | none => none

/-- `FileManager._parse_note_file` (lines 416-447): returns the parsed
dictionary.  Content starting with `---` is split once more on `---`; if
that succeeds the first part is parsed line-by-line as frontmatter and
the stripped remainder becomes `content`; otherwise the whole text
becomes `content` with title `Untitled`. -/
def parseNoteFile (content : List Char) : List (List Char × PVal) :=
  if (toL "---").isPrefixOf content then
    match splitOnce (toL "---") (content.drop 3) with
    | some (fm, note_content) =>
      ((pySplitAll '\n' (pyStrip fm)).filterMap parseFrontLine) ++
        [(toL "content", PVal.lit (pyStrip note_content))]
    | none =>
      [(toL "content", PVal.lit content), (toL "title", PVal.lit (toL "Untitled"))]
  else
    [(toL "content", PVal.lit content), (toL "title", PVal.lit (toL "Untitled"))]

lemma splitOnce_self_append (sep X : List Char) (hne : sep ≠ []) :
    splitOnce sep (sep ++ X) = some ([], X) := by
  cases hs : sep with
  | nil => exact absurd hs hne
  | cons c cs =>
    rw [← hs]
    have h1 : sep ++ X = c :: (cs ++ X) := by rw [hs]; rfl
    rw [h1, splitOnce, if_pos]
    · rw [← h1, List.drop_left]
    · rw [← h1]
      exact List.isPrefixOf_iff_prefix.mpr (List.prefix_append sep X)

lemma splitOnce_append_no_occ (sep : List Char) :
    ∀ (l r : List Char),
      (∀ i, i < l.length → sep.isPrefixOf ((l ++ r).drop i) = false) →
      splitOnce sep (l ++ r) = (splitOnce sep r).map (fun p => (l ++ p.1, p.2))
  | [], r, _ => by
    cases hr : splitOnce sep r with
    | none => simp [hr]
    | some p => simp [hr]
  | c :: l2, r, h => by
    have h0 := h 0 (by simp)
    rw [List.drop_zero] at h0
    have h0' : sep.isPrefixOf (c :: (l2 ++ r)) = false := by
      rw [← List.cons_append]; exact h0
    have hrest := splitOnce_append_no_occ sep l2 r
      (fun i hi => by
        have h2 := h (i + 1) (by simp only [List.length_cons]; omega)
        simpa using h2)
    rw [List.cons_append, splitOnce, if_neg (by simp [h0']), hrest]
    cases splitOnce sep r with
    | none => simp
    | some p => simp

/-! dash-run machinery for the `---` delimiter -/

def dash3At (s : List Char) (i : Nat) : Prop :=
  s[i]? = some '-' ∧ s[i + 1]? = some '-' ∧ s[i + 2]? = some '-'

def noDash3 (s : List Char) : Prop := ∀ i, ¬ dash3At s i

lemma isPrefixOf_dash3 (t : List Char) :
    (toL "---").isPrefixOf t = true ↔
      (t[0]? = some '-' ∧ t[1]? = some '-' ∧ t[2]? = some '-') := by
  have h : toL "---" = ['-', '-', '-'] := rfl
  rw [h]
  match t with
  | [] => simp [List.isPrefixOf]
  | [a] => simp [List.isPrefixOf]
  | [a, b] => simp [List.isPrefixOf]
  | a :: b :: c :: r =>
    have hunf : (['-', '-', '-'] : List Char).isPrefixOf (a :: b :: c :: r) =
        ('-' == a && ('-' == b && ('-' == c && List.isPrefixOf ([] : List Char) r))) := rfl
    rw [hunf]
    simp only [Bool.and_eq_true, beq_iff_eq]
    constructor
    · rintro ⟨ha, hb, hc, _⟩
      subst ha; subst hb; subst hc
      refine ⟨by simp, by simp, by simp⟩
    · rintro ⟨h1, h2, h3⟩
      simp only [List.getElem?_cons_succ, List.getElem?_cons_zero,
        Option.some.injEq] at h1 h2 h3
      exact ⟨h1.symm, h2.symm, h3.symm, by simp [List.isPrefixOf]⟩

lemma noDash3_of_not_containsSub {s : List Char}
    (h : containsSub s (toL "---") = false) : noDash3 s := by
  intro i hd
  have ht : s.drop i ∈ s.tails := (List.mem_tails _ _).mpr (List.drop_suffix i s)
  rw [containsSub, List.any_eq_false] at h
  have h2 := h _ ht
  apply h2
  rw [isPrefixOf_dash3]
  refine ⟨?_, ?_, ?_⟩ <;> rw [List.getElem?_drop]
  · exact hd.1
  · exact hd.2.1
  · exact hd.2.2

lemma noDash3_of_not_mem {s : List Char} (h : '-' ∉ s) : noDash3 s := by
  intro i hd
  exact h (List.getElem?_mem hd.1)

lemma noDash3_append {a b : List Char} (ha : noDash3 a) (hb : noDash3 b)
    (hhead : b[0]? ≠ some '-') : noDash3 (a ++ b) := by
  intro i hd
  by_cases hi : i + 2 < a.length
  · apply ha i
    refine ⟨?_, ?_, ?_⟩
    · rw [← @List.getElem?_append_left _ _ b _ (by omega)]; exact hd.1
    · rw [← @List.getElem?_append_left _ _ b _ (by omega)]; exact hd.2.1
    · rw [← @List.getElem?_append_left _ _ b _ (by omega)]; exact hd.2.2
  · by_cases hi2 : i < a.length
    · rcases (by omega : i + 1 = a.length ∨ i + 2 = a.length) with he | he
      · apply hhead
        have h2 := hd.2.1
        rw [List.getElem?_append_right (by omega)] at h2
        rw [show i + 1 - a.length = 0 from by omega] at h2
        exact h2
      · apply hhead
        have h2 := hd.2.2
        rw [List.getElem?_append_right (by omega)] at h2
        rw [show i + 2 - a.length = 0 from by omega] at h2
        exact h2
    · apply hb (i - a.length)
      refine ⟨?_, ?_, ?_⟩
      · have h2 := hd.1
        rw [List.getElem?_append_right (by omega)] at h2
        exact h2
      · have h2 := hd.2.1
        rw [List.getElem?_append_right (by omega),
          show i + 1 - a.length = (i - a.length) + 1 from by omega] at h2
        exact h2
      · have h2 := hd.2.2
        rw [List.getElem?_append_right (by omega),
          show i + 2 - a.length = (i - a.length) + 2 from by omega] at h2
        exact h2

lemma splitOnce_cond_of_noDash3 (l0 r : List Char) (h : noDash3 (l0 ++ ['\n'])) :
    ∀ i, i < (l0 ++ ['\n']).length →
      (toL "---").isPrefixOf (((l0 ++ ['\n']) ++ r).drop i) = false := by
  intro i hi
  by_contra hcon
  rw [Bool.not_eq_false, isPrefixOf_dash3] at hcon
  obtain ⟨h1, h2, h3⟩ := hcon
  rw [List.getElem?_drop] at h1 h2 h3
  simp only [Nat.add_zero] at h1
  have hlen : (l0 ++ ['\n']).length = l0.length + 1 := by simp
  have hnl : (l0 ++ ['\n'])[l0.length]? = some '\n' := by
    rw [List.getElem?_append_right (le_refl _)]
    simp
  by_cases hc : i = l0.length
  · -- position i is the final newline
    rw [List.getElem?_append_left (by omega), hc, hnl] at h1
    exact absurd (Option.some.inj h1) (by decide)
  · have hi2 : i + 2 < (l0 ++ ['\n']).length ∨ i + 1 = l0.length ∨ i + 2 = l0.length + 1 := by
      omega
    rcases (by omega : i + 2 ≤ l0.length ∨ i + 1 = l0.length ∨ i = l0.length) with hx | hx | hx
    · -- all three positions inside l0 ++ ['\n']
      apply h i
      refine ⟨?_, ?_, ?_⟩
      · rw [← @List.getElem?_append_left _ _ r _ (by omega)]; exact h1
      · rw [← @List.getElem?_append_left _ _ r _ (by omega)]; exact h2
      · rw [← @List.getElem?_append_left _ _ r _ (by omega)]; exact h3
    · -- position i+1 is the final newline
      rw [List.getElem?_append_left (by omega), hx, hnl] at h2
      exact absurd (Option.some.inj h2) (by decide)
    · exact hc hx

lemma pySplitAll_append {a : List Char} (r : List Char) (h : '\n' ∉ a) :
    pySplitAll '\n' (a ++ '\n' :: r) = a :: pySplitAll '\n' r := by
  induction a with
  | nil => simp [pySplitAll]
  | cons c a2 ih =>
    have hc : c ≠ '\n' := fun he => h (he ▸ List.mem_cons_self c a2)
    have ih2 := ih (fun hm => h (List.mem_cons_of_mem c hm))
    rw [List.cons_append, pySplitAll, if_neg hc, ih2]

lemma pySplitAll_no_sep {a : List Char} (h : '\n' ∉ a) :
    pySplitAll '\n' a = [a] := by
  induction a with
  | nil => rfl
  | cons c a2 ih =>
    have hc : c ≠ '\n' := fun he => h (he ▸ List.mem_cons_self c a2)
    have ih2 := ih (fun hm => h (List.mem_cons_of_mem c hm))
    rw [pySplitAll, if_neg hc, ih2]

/-! ### Character bounds of `json.dumps` output -/

lemma hexDigitChar_ge {k : Nat} (h : k < 16) : 0x20 ≤ (hexDigitChar k).toNat := by
  interval_cases k <;> decide

lemma mem_encodeHex4_ge {n : Nat} {x : Char} (hx : x ∈ encodeHex4 n) :
    0x20 ≤ x.toNat := by
  simp only [encodeHex4, List.mem_cons, List.not_mem_nil, or_false] at hx
  rcases hx with h | h | h | h <;>
    (subst h; exact hexDigitChar_ge (Nat.mod_lt _ (by norm_num)))

lemma escChar_ge (c : Char) : ∀ x ∈ escChar c, 0x20 ≤ x.toNat := by
  intro x hx
  by_cases h1 : c = '"'
  · rw [escChar, if_pos h1] at hx
    simp only [List.mem_cons, List.not_mem_nil, or_false] at hx
    rcases hx with h | h <;> (subst h; decide)
  by_cases h2 : c = '\\'
  · rw [escChar, if_neg h1, if_pos h2] at hx
    simp only [List.mem_cons, List.not_mem_nil, or_false] at hx
    rcases hx with h | h <;> (subst h; decide)
  by_cases h3 : c = '\n'
  · rw [escChar, if_neg h1, if_neg h2, if_pos h3] at hx
    simp only [List.mem_cons, List.not_mem_nil, or_false] at hx
    rcases hx with h | h <;> (subst h; decide)
  by_cases h4 : c = '\r'
  · rw [escChar, if_neg h1, if_neg h2, if_neg h3, if_pos h4] at hx
    simp only [List.mem_cons, List.not_mem_nil, or_false] at hx
    rcases hx with h | h <;> (subst h; decide)
  by_cases h5 : c = '\t'
  · rw [escChar, if_neg h1, if_neg h2, if_neg h3, if_neg h4, if_pos h5] at hx
    simp only [List.mem_cons, List.not_mem_nil, or_false] at hx
    rcases hx with h | h <;> (subst h; decide)
  by_cases h6 : c = '\x08'
  · rw [escChar, if_neg h1, if_neg h2, if_neg h3, if_neg h4, if_neg h5, if_pos h6] at hx
    simp only [List.mem_cons, List.not_mem_nil, or_false] at hx
    rcases hx with h | h <;> (subst h; decide)
  by_cases h7 : c = '\x0c'
  · rw [escChar, if_neg h1, if_neg h2, if_neg h3, if_neg h4, if_neg h5, if_neg h6,
      if_pos h7] at hx
    simp only [List.mem_cons, List.not_mem_nil, or_false] at hx
    rcases hx with h | h <;> (subst h; decide)
  by_cases h8 : c.toNat < 0x20
  · rw [escChar, if_neg h1, if_neg h2, if_neg h3, if_neg h4, if_neg h5, if_neg h6,
      if_neg h7, if_pos h8] at hx
    simp only [List.mem_cons] at hx
    rcases hx with h | h | h
    · subst h; decide
    · subst h; decide
    · exact mem_encodeHex4_ge h
  by_cases h9 : c.toNat < 0x80
  · rw [escChar, if_neg h1, if_neg h2, if_neg h3, if_neg h4, if_neg h5, if_neg h6,
      if_neg h7, if_neg h8, if_pos h9] at hx
    simp only [List.mem_cons, List.not_mem_nil, or_false] at hx
    subst hx; omega
  by_cases h10 : c.toNat < 0x10000
  · rw [escChar, if_neg h1, if_neg h2, if_neg h3, if_neg h4, if_neg h5, if_neg h6,
      if_neg h7, if_neg h8, if_neg h9, if_pos h10] at hx
    simp only [List.mem_cons] at hx
    rcases hx with h | h | h
    · subst h; decide
    · subst h; decide
    · exact mem_encodeHex4_ge h
  · rw [escChar, if_neg h1, if_neg h2, if_neg h3, if_neg h4, if_neg h5, if_neg h6,
      if_neg h7, if_neg h8, if_neg h9, if_neg h10] at hx
    rcases List.mem_append.mp hx with h | h
    · simp only [List.mem_cons] at h
      rcases h with h | h | h
      · subst h; decide
      · subst h; decide
      · exact mem_encodeHex4_ge h
    · simp only [List.mem_cons] at h
      rcases h with h | h | h
      · subst h; decide
      · subst h; decide
      · exact mem_encodeHex4_ge h

lemma escBody_ge (s : List Char) : ∀ x ∈ escBody s, 0x20 ≤ x.toNat := by
  induction s with
  | nil => simp [escBody]
  | cons c s ih =>
    intro x hx
    rw [escBody] at hx
    rcases List.mem_append.mp hx with h | h
    · exact escChar_ge c x h
    · exact ih x h

lemma dumpStr_ge (s : List Char) : ∀ x ∈ dumpStr s, 0x20 ≤ x.toNat := by
  intro x hx
  rw [dumpStr] at hx
  rcases List.mem_cons.mp hx with h | h
  · subst h; decide
  · rcases List.mem_append.mp h with h2 | h2
    · exact escBody_ge s x h2
    · simp at h2; subst h2; decide

lemma mem_intercalate_gen {α : Type} (sep : List α) (ws : List (List α)) (c : α)
    (h : c ∈ List.intercalate sep ws) : c ∈ sep ∨ ∃ w ∈ ws, c ∈ w := by
  rw [List.intercalate] at h
  rcases List.mem_flatten.mp h with ⟨piece, hp, hc⟩
  rcases mem_intersperse sep ws piece hp with h2 | h2
  · subst h2; exact Or.inl hc
  · exact Or.inr ⟨piece, h2, hc⟩

lemma dumpStrList_ge (ts : List (List Char)) : ∀ x ∈ dumpStrList ts, 0x20 ≤ x.toNat := by
  intro x hx
  rw [dumpStrList] at hx
  rcases List.mem_append.mp hx with h | h
  · rcases List.mem_append.mp h with h2 | h2
    · simp only [toL] at h2; simp at h2; subst h2; decide
    · rcases mem_intercalate_gen _ _ _ h2 with h3 | ⟨w, hw, hcw⟩
      · simp only [toL] at h3; simp at h3
        rcases h3 with h4 | h4 <;> (subst h4; decide)
      · rcases List.mem_map.mp hw with ⟨t, _, ht⟩
        exact dumpStr_ge t x (ht ▸ hcw)
  · simp only [toL] at h; simp at h; subst h; decide

lemma newline_not_mem_dumpStr (s : List Char) : '\n' ∉ dumpStr s := by
  intro h
  have := dumpStr_ge s _ h
  revert this; decide

lemma newline_not_mem_dumpStrList (ts : List (List Char)) : '\n' ∉ dumpStrList ts := by
  intro h
  have := dumpStrList_ge ts _ h
  revert this; decide

/-! ### `str.strip` lemmas -/

lemma pyStrip_cons_ws {c : Char} (h : isPySpace c = true) (s : List Char) :
    pyStrip (c :: s) = pyStrip s := by
  rw [pyStrip, pyStrip, List.dropWhile_cons_of_pos h]

lemma pyStrip_exact {x z : Char} {mid : List Char}
    (hx : isPySpace x = false) (hz : isPySpace z = false) :
    pyStrip (x :: (mid ++ [z])) = x :: (mid ++ [z]) := by
  rw [pyStrip, List.dropWhile_cons_of_neg (by simp [hx])]
  have hrev : (x :: (mid ++ [z])).reverse = z :: (mid.reverse ++ [x]) := by simp
  rw [hrev, List.dropWhile_cons_of_neg (by simp [hz])]
  rw [← hrev, List.reverse_reverse]

lemma pyStrip_trailing_nl {x z : Char} {mid : List Char}
    (hx : isPySpace x = false) (hz : isPySpace z = false) :
    pyStrip ((x :: (mid ++ [z])) ++ ['\n']) = x :: (mid ++ [z]) := by
  rw [pyStrip, List.cons_append, List.dropWhile_cons_of_neg (by simp [hx])]
  have hrev : ((x :: (mid ++ [z])) ++ ['\n']).reverse =
      '\n' :: (z :: (mid.reverse ++ [x])) := by simp
  rw [← List.cons_append, hrev, List.dropWhile_cons_of_pos (by decide),
    List.dropWhile_cons_of_neg (by simp [hz])]
  have : (z :: (mid.reverse ++ [x])).reverse = x :: (mid ++ [z]) := by simp
  rw [this]

lemma dumpStr_shape (s : List Char) : dumpStr s = '"' :: (escBody s ++ ['"']) := rfl

lemma dumpStrList_bracket_shape (ts : List (List Char)) :
    dumpStrList ts = '[' :: (List.intercalate (toL ", ") (ts.map dumpStr) ++ [']']) := by
  rw [dumpStrList]
  have h1 : toL "[" = ['['] := rfl
  have h2 : toL "]" = [']'] := rfl
  rw [h1, h2]
  simp

lemma pyStrip_space_dumpStr (s : List Char) :
    pyStrip (' ' :: dumpStr s) = dumpStr s := by
  rw [pyStrip_cons_ws (by decide), dumpStr_shape, pyStrip_exact (by decide) (by decide)]

lemma pyStrip_space_dumpStrList (ts : List (List Char)) :
    pyStrip (' ' :: dumpStrList ts) = dumpStrList ts := by
  rw [pyStrip_cons_ws (by decide), dumpStrList_bracket_shape,
    pyStrip_exact (by decide) (by decide)]

/-! ### Frontmatter line parsing -/

lemma splitOnce_colon :
    ∀ (a r : List Char), ':' ∉ a → splitOnce [':'] (a ++ ':' :: r) = some (a, r)
  | [], r, _ => by
    rw [List.nil_append, splitOnce, if_pos
      (show [':'].isPrefixOf (':' :: r) = true from
        List.isPrefixOf_iff_prefix.mpr ⟨r, rfl⟩)]
    rfl
  | c :: a2, r, h => by
    have hc : c ≠ ':' := fun he => h (he ▸ List.mem_cons_self c a2)
    have hnp : [':'].isPrefixOf (c :: (a2 ++ ':' :: r)) = false := by
      by_contra hcon
      rw [Bool.not_eq_false, List.isPrefixOf_iff_prefix] at hcon
      rcases hcon with ⟨t, ht⟩
      rw [List.cons_append] at ht
      exact hc (List.cons.inj ht).1.symm
    rw [List.cons_append, splitOnce, if_neg (by simp [hnp]),
      splitOnce_colon a2 r (fun hm => h (List.mem_cons_of_mem c hm))]
    rfl

lemma parseFrontLine_json (key : List Char) (hk : ':' ∉ key)
    (hkstrip : pyStrip key = key) (v : List Char) (j : JValue)
    (hstrip : pyStrip (' ' :: v) = v) (hload : jsonLoads v = some j) :
    parseFrontLine (key ++ (':' :: (' ' :: v))) = some (key, .json j) := by
  rw [parseFrontLine, splitOnce_colon key _ hk]
  show some (pyStrip key,
    match jsonLoads (pyStrip (' ' :: v)) with
    | some j => PVal.json j
    | none => PVal.lit (pyStrip (' ' :: v))) = some (key, .json j)
  rw [hkstrip, hstrip, hload]

lemma getElem0_cons_append (c : Char) (X Y : List Char) :
    ((c :: X) ++ Y)[0]? = some c := by
  rw [List.cons_append]
  simp

lemma noDash3_fmLines (title : List Char) (tags : List (List Char)) (ts : List Char)
    (hT : containsSub (dumpStr title) (toL "---") = false)
    (hC : containsSub (dumpStr ts) (toL "---") = false)
    (hG : containsSub (dumpStrList tags) (toL "---") = false) :
    noDash3 (fmLines title tags ts) := by
  have nT := noDash3_of_not_containsSub hT
  have nC := noDash3_of_not_containsSub hC
  have nG := noDash3_of_not_containsSub hG
  have n7 : noDash3 (toL "\nmetadata: \x7b\x7d") := noDash3_of_not_mem (by decide)
  have n6 : noDash3 (dumpStrList tags ++ toL "\nmetadata: \x7b\x7d") := by
    refine noDash3_append nG n7 ?_
    rw [show toL "\nmetadata: \x7b\x7d" = '\n' :: toL "metadata: \x7b\x7d" from rfl]
    simp
  have n5 : noDash3 (toL "\ntags: " ++ (dumpStrList tags ++ toL "\nmetadata: \x7b\x7d")) := by
    refine noDash3_append (noDash3_of_not_mem (by decide)) n6 ?_
    rw [dumpStrList_bracket_shape, getElem0_cons_append]
    decide
  have n4 : noDash3 (dumpStr ts ++ (toL "\ntags: " ++
      (dumpStrList tags ++ toL "\nmetadata: \x7b\x7d"))) := by
    refine noDash3_append nC n5 ?_
    rw [show toL "\ntags: " = '\n' :: toL "tags: " from rfl, getElem0_cons_append]
    decide
  have n3 : noDash3 (toL "\ncreated: " ++ (dumpStr ts ++ (toL "\ntags: " ++
      (dumpStrList tags ++ toL "\nmetadata: \x7b\x7d")))) := by
    refine noDash3_append (noDash3_of_not_mem (by decide)) n4 ?_
    rw [dumpStr_shape, getElem0_cons_append]
    decide
  have n2 : noDash3 (dumpStr title ++ (toL "\ncreated: " ++ (dumpStr ts ++ (toL "\ntags: " ++
      (dumpStrList tags ++ toL "\nmetadata: \x7b\x7d"))))) := by
    refine noDash3_append nT n3 ?_
    rw [show toL "\ncreated: " = '\n' :: toL "created: " from rfl, getElem0_cons_append]
    decide
  rw [fmLines]
  refine noDash3_append (noDash3_of_not_mem (by decide)) n2 ?_
  rw [dumpStr_shape, getElem0_cons_append]
  decide

lemma fmLines_head_tail (title : List Char) (tags : List (List Char)) (ts : List Char) :
    fmLines title tags ts =
      't' :: ((toL "itle: " ++ (dumpStr title ++ (toL "\ncreated: " ++ (dumpStr ts ++
        (toL "\ntags: " ++ (dumpStrList tags ++ toL "\nmetadata: \x7b")))))) ++ ['\x7d']) := by
  rw [fmLines]
  rw [show toL "title: " = 't' :: toL "itle: " from rfl]
  rw [show toL "\nmetadata: \x7b\x7d" = toL "\nmetadata: \x7b" ++ ['\x7d'] from rfl]
  simp

lemma fmLines_as_lines (title : List Char) (tags : List (List Char)) (ts : List Char) :
    fmLines title tags ts =
      (toL "title: " ++ dumpStr title) ++ '\n' ::
        ((toL "created: " ++ dumpStr ts) ++ '\n' ::
          ((toL "tags: " ++ dumpStrList tags) ++ '\n' :: toL "metadata: \x7b\x7d")) := by
  rw [fmLines]
  rw [show toL "\ncreated: " = '\n' :: toL "created: " from rfl]
  rw [show toL "\ntags: " = '\n' :: toL "tags: " from rfl]
  rw [show toL "\nmetadata: \x7b\x7d" = '\n' :: toL "metadata: \x7b\x7d" from rfl]
  simp

lemma pyDictGet_cons_ne {K V : Type} [BEq K] (k k2 : K) (v : V)
    (d : List (K × V)) (h : (k == k2) = false) :
    pyDictGet ((k, v) :: d) k2 = pyDictGet d k2 := by
  simp [pyDictGet, List.filter_cons, h]

lemma pyDictGet_nil {K V : Type} [BEq K] (k : K) :
    pyDictGet ([] : List (K × V)) k = none := rfl

lemma pyDictGet_cons_eq_of_none {K V : Type} [BEq K] (k k2 : K) (v : V)
    (d : List (K × V)) (h : (k == k2) = true) (hrest : pyDictGet d k2 = none) :
    pyDictGet ((k, v) :: d) k2 = some v := by
  have hfil : d.filter (fun e => e.1 == k2) = [] := by
    rw [pyDictGet] at hrest
    rcases hf : d.filter (fun e => e.1 == k2) with _ | ⟨a, l⟩
    · exact hf
    · rw [hf] at hrest
      rw [List.getLast?_cons] at hrest
      simp at hrest
  simp [pyDictGet, List.filter_cons, h, hfil]

/-- Round-trip of `save_notes` then `_parse_note_file`, provided the JSON
encodings of the title, timestamp and tag list contain no `---`. -/
lemma parseNoteFile_saveNotes (title body ts : List Char) (tags : List (List Char))
    (hT : containsSub (dumpStr title) (toL "---") = false)
    (hC : containsSub (dumpStr ts) (toL "---") = false)
    (hG : containsSub (dumpStrList tags) (toL "---") = false) :
    parseNoteFile (saveNotesContent title body tags ts) =
      [(toL "title", .json (.str title)),
       (toL "created", .json (.str ts)),
       (toL "tags", .json (.arr (tags.map .str))),
       (toL "metadata", .json (.obj [])),
       (toL "content", PVal.lit (pyStrip body))] := by
  set FM := fmLines title tags ts with hFM
  have hcontent : saveNotesContent title body tags ts =
      toL "---" ++ (('\n' :: (FM ++ ['\n'])) ++
        (toL "---" ++ (toL "\n\n" ++ body))) := by
    rw [saveNotesContent, ← hFM]
    rw [show toL "---\n" = toL "---" ++ ['\n'] from rfl]
    rw [show toL "\n---\n\n" = '\n' :: (toL "---" ++ toL "\n\n") from rfl]
    simp
  have hpre : (toL "---").isPrefixOf (saveNotesContent title body tags ts) = true := by
    rw [hcontent]
    exact List.isPrefixOf_iff_prefix.mpr (List.prefix_append _ _)
  have hdrop : (saveNotesContent title body tags ts).drop 3 =
      ('\n' :: (FM ++ ['\n'])) ++ (toL "---" ++ (toL "\n\n" ++ body)) := by
    rw [hcontent, show (3 : Nat) = (toL "---").length from rfl, List.drop_left]
  have hndFM : noDash3 FM := noDash3_fmLines title tags ts hT hC hG
  have hnd : noDash3 (('\n' :: FM) ++ ['\n']) := by
    refine noDash3_append ?_ (noDash3_of_not_mem (by decide)) (by decide)
    have : ('\n' :: FM) = ['\n'] ++ FM := rfl
    rw [this]
    refine noDash3_append (noDash3_of_not_mem (by decide)) hndFM ?_
    rw [hFM, fmLines_head_tail]
    simp
  have hsplit : splitOnce (toL "---")
      (('\n' :: (FM ++ ['\n'])) ++ (toL "---" ++ (toL "\n\n" ++ body))) =
      some ('\n' :: (FM ++ ['\n']), toL "\n\n" ++ body) := by
    have hre : '\n' :: (FM ++ ['\n']) = ('\n' :: FM) ++ ['\n'] := by simp
    rw [hre, splitOnce_append_no_occ (toL "---") _ _
      (splitOnce_cond_of_noDash3 ('\n' :: FM) _ hnd)]
    rw [splitOnce_self_append _ _ (by decide)]
    simp
  have hstripfm : pyStrip ('\n' :: (FM ++ ['\n'])) = FM := by
    rw [pyStrip_cons_ws (by decide), hFM, fmLines_head_tail]
    exact pyStrip_trailing_nl (by decide) (by decide)
  have hnl1 : '\n' ∉ toL "title: " ++ dumpStr title := by
    intro hm
    rcases List.mem_append.mp hm with hm2 | hm2
    · revert hm2; decide
    · exact newline_not_mem_dumpStr title hm2
  have hnl2 : '\n' ∉ toL "created: " ++ dumpStr ts := by
    intro hm
    rcases List.mem_append.mp hm with hm2 | hm2
    · revert hm2; decide
    · exact newline_not_mem_dumpStr ts hm2
  have hnl3 : '\n' ∉ toL "tags: " ++ dumpStrList tags := by
    intro hm
    rcases List.mem_append.mp hm with hm2 | hm2
    · revert hm2; decide
    · exact newline_not_mem_dumpStrList tags hm2
  have hlines : pySplitAll '\n' FM =
      [toL "title: " ++ dumpStr title, toL "created: " ++ dumpStr ts,
       toL "tags: " ++ dumpStrList tags, toL "metadata: \x7b\x7d"] := by
    rw [hFM, fmLines_as_lines]
    rw [pySplitAll_append _ hnl1, pySplitAll_append _ hnl2, pySplitAll_append _ hnl3,
      pySplitAll_no_sep (by decide)]
  have hl1 : parseFrontLine (toL "title: " ++ dumpStr title) =
      some (toL "title", .json (.str title)) := by
    rw [show toL "title: " ++ dumpStr title =
      toL "title" ++ (':' :: (' ' :: dumpStr title)) from rfl]
    exact parseFrontLine_json (toL "title") (by decide) (by decide) _ _
      (pyStrip_space_dumpStr title) (jsonLoads_dumpStr title)
  have hl2 : parseFrontLine (toL "created: " ++ dumpStr ts) =
      some (toL "created", .json (.str ts)) := by
    rw [show toL "created: " ++ dumpStr ts =
      toL "created" ++ (':' :: (' ' :: dumpStr ts)) from rfl]
    exact parseFrontLine_json (toL "created") (by decide) (by decide) _ _
      (pyStrip_space_dumpStr ts) (jsonLoads_dumpStr ts)
  have hl3 : parseFrontLine (toL "tags: " ++ dumpStrList tags) =
      some (toL "tags", .json (.arr (tags.map .str))) := by
    rw [show toL "tags: " ++ dumpStrList tags =
      toL "tags" ++ (':' :: (' ' :: dumpStrList tags)) from rfl]
    exact parseFrontLine_json (toL "tags") (by decide) (by decide) _ _
      (pyStrip_space_dumpStrList tags) (jsonLoads_dumpStrList tags)
  have hl4 : parseFrontLine (toL "metadata: \x7b\x7d") =
      some (toL "metadata", .json (.obj [])) := by rfl
  have hcontentval : pyStrip (toL "\n\n" ++ body) = pyStrip body := by
    rw [show toL "\n\n" ++ body = '\n' :: ('\n' :: body) from rfl,
      pyStrip_cons_ws (by decide), pyStrip_cons_ws (by decide)]
  rw [parseNoteFile, if_pos hpre, hdrop, hsplit]
  show ((pySplitAll '\n' (pyStrip ('\n' :: (FM ++ ['\n'])))).filterMap parseFrontLine) ++
      [(toL "content", PVal.lit (pyStrip (toL "\n\n" ++ body)))] = _
  rw [hstripfm, hlines, hcontentval]
  simp [List.filterMap_cons, hl1, hl2, hl3, hl4]

/-! ### `file_manager.search_notes` -/

/-- Python `str.lower()`, restricted to ASCII letters (all note text in
the properties below is ASCII). -/
def lowerL (s : List Char) : List Char := s.map Char.toLower

/-- `value.lower()` succeeds only on strings; any other value raises
`AttributeError` (`none`). -/
def strOfPVal : PVal → Option (List Char)
  | .json (.str s) => some s
  | .lit s => some s
  | _ => none

/-- Python truthiness of a parsed frontmatter value (numeric truthiness is
approximated by comparison with the lexeme `0`; no property below involves
numbers). -/
def pvTruthy : PVal → Bool
  | .json (.str s) => !s.isEmpty
  | .json (.arr vs) => !vs.isEmpty
  | .json (.obj fs) => !fs.isEmpty
  | .json (.boolean b) => b
  | .json .null => false
  | .json (.num raw) => raw ≠ toL "0"
  | .lit s => !s.isEmpty

/-- `for tag in note_data['tags']`: iterating a list yields its elements
(each must be a string for `tag.lower()` to succeed), iterating a string
yields its characters, iterating a dictionary yields its keys; iterating
anything else raises (`none`). -/
def tagStrings : PVal → Option (List (List Char))
  | .json (.arr vs) => vs.mapM (fun t => match t with | .str s => some s | _ => none)
  | .json (.str s) => some (s.map (fun c => [c]))
  | .lit s => some (s.map (fun c => [c]))
  | .json (.obj fs) => some (fs.map (fun f => f.1))
  | _ => none

/-- The match test of `search_notes` for one parsed note (with the default
`search_content = search_tags = True`): content substring, tag substring,
then title substring, all lower-cased; `none` models an exception inside
the per-file `try` (the file is then skipped). -/
def noteMatches (query_lower : List Char) (nd : List (List Char × PVal)) :
    Option Bool := do
  let cv := (pyDictGet nd (toL "content")).getD (.lit [])
  let cs ← strOfPVal cv
  let contentMatch := containsSub (lowerL cs) query_lower
  let tagMatch ← match pyDictGet nd (toL "tags") with
    | none => some false
    | some tv =>
      if pvTruthy tv then
        (tagStrings tv).map
          (fun tgs => tgs.any (fun t => containsSub (lowerL t) query_lower))
      else some false
  let tl := (pyDictGet nd (toL "title")).getD (.lit [])
  let tstr ← strOfPVal tl
  let titleMatch := containsSub (lowerL tstr) query_lower
  some (contentMatch || tagMatch || titleMatch)

/-- `FileManager.search_notes` (lines 192-241) over an abstract store of
`(file name, file content)` pairs: parse each note, keep the matching
ones (with their `file_path` recorded), and skip any file whose
processing raises. -/
def searchNotes (files : List (List Char × List Char)) (query : List Char) :
    List (List (List Char × PVal)) :=
  files.filterMap (fun f =>
    let nd := parseNoteFile f.2
    match noteMatches (lowerL query) nd with
    | some true => some (dictSet nd (toL "file_path") (.lit f.1))
    | _ => none)

/-- C2 counterexample: saving a note titled `a---b` and re-parsing the
file does not reproduce the title — the `---` inside the title's JSON
encoding terminates the frontmatter early, leaving the literal `"a` as
the parsed title. -/
theorem c2_counterexample :
    pyDictGet (parseNoteFile (saveNotesContent (toL "a---b") (toL "Body.")
        [] (toL "2024-01-01T00:00:00"))) (toL "title") =
      some (PVal.lit (toL "\x22a")) ∧
    ∀ v : JValue, some (PVal.lit (toL "\x22a")) ≠ some (PVal.json v) := by
  constructor
  · rfl
  · intro v h
    simp at h

set_option maxRecDepth 100000 in
set_option maxHeartbeats 1000000 in
/-- C2 amended: the frontmatter round-trip reproduces the title and the
tag list for every title, body, timestamp and tag list whose JSON
encodings contain no `---`; and for the concrete note
`Machine Learning Basics` with tags `ml`, `basics`, searching `basics`
returns exactly that note while searching `nonexistent` returns none. -/
theorem c2_note_roundtrip_and_search (title body ts : List Char)
    (tags : List (List Char))
    (hT : containsSub (dumpStr title) (toL "---") = false)
    (hC : containsSub (dumpStr ts) (toL "---") = false)
    (hG : containsSub (dumpStrList tags) (toL "---") = false) :
    (pyDictGet (parseNoteFile (saveNotesContent title body tags ts)) (toL "title") =
      some (.json (.str title)) ∧
     pyDictGet (parseNoteFile (saveNotesContent title body tags ts)) (toL "tags") =
      some (.json (.arr (tags.map .str)))) ∧
    ((searchNotes [(toL "Machine_Learning_Basics.md",
        saveNotesContent (toL "Machine Learning Basics")
          (toL "This note covers machine learning fundamentals.")
          [toL "ml", toL "basics"] (toL "2024-01-01T00:00:00"))]
        (toL "basics")).length = 1 ∧
     searchNotes [(toL "Machine_Learning_Basics.md",
        saveNotesContent (toL "Machine Learning Basics")
          (toL "This note covers machine learning fundamentals.")
          [toL "ml", toL "basics"] (toL "2024-01-01T00:00:00"))]
        (toL "nonexistent") = []) := by
  refine ⟨⟨?_, ?_⟩, ?_, ?_⟩
  · rw [parseNoteFile_saveNotes title body ts tags hT hC hG]
    refine pyDictGet_cons_eq_of_none _ _ _ _ (by decide) ?_
    rw [pyDictGet_cons_ne _ _ _ _ (by decide), pyDictGet_cons_ne _ _ _ _ (by decide),
      pyDictGet_cons_ne _ _ _ _ (by decide), pyDictGet_cons_ne _ _ _ _ (by decide)]
    rfl
  · rw [parseNoteFile_saveNotes title body ts tags hT hC hG]
    rw [pyDictGet_cons_ne _ _ _ _ (by decide), pyDictGet_cons_ne _ _ _ _ (by decide)]
    refine pyDictGet_cons_eq_of_none _ _ _ _ (by decide) ?_
    rw [pyDictGet_cons_ne _ _ _ _ (by decide), pyDictGet_cons_ne _ _ _ _ (by decide)]
    rfl
  · rfl
  · rfl

/-- Witness for C2 at the concrete note of the claim. -/
theorem c2_note_roundtrip_and_search_witness :
    containsSub (dumpStr (toL "Machine Learning Basics")) (toL "---") = false ∧
    pyDictGet (parseNoteFile (saveNotesContent (toL "Machine Learning Basics")
        (toL "This note covers machine learning fundamentals.")
        [toL "ml", toL "basics"] (toL "2024-01-01T00:00:00"))) (toL "title") =
      some (.json (.str (toL "Machine Learning Basics"))) ∧
    pyDictGet (parseNoteFile (saveNotesContent (toL "Machine Learning Basics")
        (toL "This note covers machine learning fundamentals.")
        [toL "ml", toL "basics"] (toL "2024-01-01T00:00:00"))) (toL "tags") =
      some (.json (.arr [.str (toL "ml"), .str (toL "basics")])) := by
  have h := c2_note_roundtrip_and_search (toL "Machine Learning Basics")
    (toL "This note covers machine learning fundamentals.")
    (toL "2024-01-01T00:00:00") [toL "ml", toL "basics"]
    (by decide) (by decide) (by decide)
  exact ⟨by decide, h.1.1, h.1.2⟩

end MCPRA
